import Mathlib

/-!
Verification of the document-to-searchable-chunk pipeline of the
Theology_Ai_Lab repository.

The Lean definitions below are shallow embeddings of the Python source under
`03_System/`.  Python `int` is modelled as `Int` (or `Nat` where the source
value is always non-negative), Python strings as `String` (Lean chars are
Unicode code points, matching Python's code-point indexing), Python `dict`
used as an insertion-ordered map as an association `List`, and fallible code
as `Option`.  Confidence scores (Python floats such as `0.9`, `0.5`) are
modelled as rationals: all scores in the source are small decimal literals
whose comparisons are exact.  External collaborators (the langchain text
splitter, the `re` module where a full engine would be needed, tokenizers)
are either embedded directly for the regexes the claims depend on, or are
universally quantified function parameters, which only strengthens the
theorems.
-/

set_option maxRecDepth 100000

/-! ## Python string primitives used throughout the source -/

/-- Characters stripped by Python `str.strip()` with no argument
(space, tab, newline, carriage return, form feed, vertical tab). -/
def pySpaceChar (c : Char) : Bool :=
  c = ' ' || c = '\t' || c = '\n' || c = '\r' || c = Char.ofNat 11 || c = Char.ofNat 12

/-- Leading-whitespace removal (the front half of Python `str.strip()`). -/
def frontStrip (l : List Char) : List Char := l.dropWhile pySpaceChar

/-- Trailing-whitespace removal (the back half of Python `str.strip()`). -/
def backStrip (l : List Char) : List Char :=
  (l.reverse.dropWhile pySpaceChar).reverse

/-- Python `str.strip()`. -/
def pyStrip (s : String) : String := String.mk (backStrip (frontStrip s.data))

/-- Python `str.lower()` on the character range the repository uses:
ASCII `A`-`Z` and the Latin-1 uppercase letters `À`-`Þ` (so that e.g.
`Ö` lowers to `ö` as in `"wörterbuch"`); all other characters unchanged. -/
def pyLowerChar (c : Char) : Char :=
  let n := c.toNat
  if 65 ≤ n && n ≤ 90 then Char.ofNat (n + 32)
  else if 192 ≤ n && n ≤ 222 && n ≠ 215 then Char.ofNat (n + 32)
  else c

/-- Python `str.upper()` on the same character range (inverse direction). -/
def pyUpperChar (c : Char) : Char :=
  let n := c.toNat
  if 97 ≤ n && n ≤ 122 then Char.ofNat (n - 32)
  else if 224 ≤ n && n ≤ 254 && n ≠ 247 then Char.ofNat (n - 32)
  else c

def pyLower (s : String) : String := String.mk (s.data.map pyLowerChar)

def pyUpper (s : String) : String := String.mk (s.data.map pyUpperChar)

/-- First list is a prefix of the second (on characters). -/
def lstarts : List Char → List Char → Bool
  | [], _ => true
  | _ :: _, [] => false
  | p :: ps, c :: cs => p = c && lstarts ps cs

/-- Substring search on character lists: does `pat` occur inside `hay`?
Models Python `pat in hay`. -/
def lhasSub : List Char → List Char → Bool
  | hay, pat =>
    if lstarts pat hay then true
    else match hay with
      | [] => false
      | _ :: t => lhasSub t pat

/-- Python `needle in hay` for strings. -/
def pyContains (hay pat : String) : Bool := lhasSub hay.data pat.data

/-- `os.path.basename` (POSIX): everything after the final `/`. -/
def pyBasename (s : String) : String :=
  String.mk ((s.data.reverse.takeWhile (fun c => c ≠ '/')).reverse)

/-- `os.path.dirname` (POSIX): everything before the final `/`; a non-empty
head that is not all slashes has its trailing slashes stripped. -/
def pyDirname (s : String) : String :=
  let headChars := (s.data.reverse.dropWhile (fun c => c ≠ '/')).reverse
  if headChars.isEmpty then ""
  else if headChars.all (fun c => c = '/') then String.mk headChars
  else String.mk ((headChars.reverse.dropWhile (fun c => c = '/')).reverse)

/-- `pathlib.Path(filename).name`: the component after the final `/`. -/
def pyName (s : String) : String := pyBasename s

/-- `pathlib.Path(filename).stem`: the name without its suffix; the suffix
exists only when the last `.` is neither the first character of the name
nor its last character. -/
def pyStem (s : String) : String :=
  let name := pyName s
  let cs := name.data
  let revTail := cs.reverse.takeWhile (fun c => c ≠ '.')
  if revTail.length = cs.length then name          -- no dot at all
  else if revTail.length = 0 then name             -- trailing dot: no suffix
  else if revTail.length + 1 = cs.length then name -- leading (only) dot
  else String.mk (cs.take (cs.length - revTail.length - 1))

/-- Python `range(a, b)` over integers. -/
def intRange (a b : Int) : List Int :=
  (List.range (b - a).toNat).map (fun k => a + (k : Int))

/-! ## Page mapping (`utils/page_mapping_loader.py`, `utils/local_pdf_processor.py`)

A Python page map `Dict[int, Optional[int]]` is an association list
`List (Int × Option Int)`; an inner `none` is a page explicitly mapped to
"no print page" (plate / front matter), absence of the key is an unmapped
page.  `dict.get` returns `None` in both cases, which `pageMapGet` mirrors
by flattening. -/

/-- Lookup in a page map, flattened as Python `page_map.get(pdf_page)`. -/
def pageMapGet (m : List (Int × Option Int)) (k : Int) : Option Int :=
  match m.find? (fun e => e.1 == k) with
  | some e => e.2
  | none => none

/-- Key membership test, Python `pdf_page in page_mapping`. -/
def pageMapHasKey (m : List (Int × Option Int)) (k : Int) : Bool :=
  m.any (fun e => e.1 == k)

/-- Embedding of `_process_offset_mapping` (page_mapping_loader.py:165-175):
for every pdf page `1..total_pages`, map it to `pdf - offset` when that is
positive and to no page otherwise. -/
def processOffsetMapping (offset totalPages : Int) : List (Int × Option Int) :=
  (intRange 1 (totalPages + 1)).map
    (fun p => (p, if p - offset > 0 then some (p - offset) else none))

/-- Embedding of `get_print_page` (page_mapping_loader.py:240-244) applied to
a loaded mapping's page map. -/
def getPrintPage (m : List (Int × Option Int)) (pdfPage : Int) : Option Int :=
  pageMapGet m pdfPage

/-- Embedding of the print-page resolution of `_process_pdf_content`
(local_pdf_processor.py:766-773): a loaded mapping file wins, then a nonzero
manual offset applies `max(1, pdf_page - page_offset)`, else the page number
computed during extraction is kept. -/
def resolvePrintPage (pageMapping : List (Int × Option Int))
    (pageOffset pdfPage pageNum : Int) : Option Int :=
  if pageMapping ≠ [] ∧ pageMapHasKey pageMapping pdfPage then
    pageMapGet pageMapping pdfPage
  else if pageOffset ≠ 0 then some (max 1 (pdfPage - pageOffset))
  else some pageNum

/-- The manual-offset branch of the resolution above
(local_pdf_processor.py:771). -/
def resolveOffsetBranch (pdfPage pageOffset : Int) : Int :=
  max 1 (pdfPage - pageOffset)

/-! ## Archive router (`pipeline/router.py`) -/

def DICT_KEYWORDS : List String :=
  ["dictionary", "lexicon", "사전", "주석", "wörterbuch",
   "commentary", "kommentar", "tdnt", "twot", "nidntt", "lex"]

def STRONG_KEYWORDS : List String :=
  ["tdnt", "nidntt", "lexicon", "wörterbuch"]

/-- The folder-priority test of `ArchiveRouter.get_chunk_config`
(router.py:31): any dictionary keyword occurs in the immediate parent
directory name of the lowercased path. -/
def routerParentMatch (filePath : String) : Bool :=
  let pathLower := pyLower filePath
  let parentFolder := pyBasename (pyDirname pathLower)
  DICT_KEYWORDS.any (fun k => pyContains parentFolder k)

/-- The filename-fallback test of `ArchiveRouter.get_chunk_config`
(router.py:36-37): a strong keyword occurs in the lowercased filename. -/
def routerStrongMatch (filePath : String) : Bool :=
  let pathLower := pyLower filePath
  let filename := pyBasename pathLower
  STRONG_KEYWORDS.any (fun k => pyContains (pyLower filename) k)

/-- Embedding of `ArchiveRouter.get_chunk_config` (router.py:19-43). -/
def getChunkConfig (filePath : String) : Nat × Nat × String :=
  if routerParentMatch filePath then (400, 50, "dictionary")
  else if routerStrongMatch filePath then (400, 50, "dictionary")
  else (1200, 150, "dogmatics")

/-! ## Dual search result merging (`utils/dual_search.py`)

`SearchResult` embeds the dataclass of dual_search.py:26-47 (the free-form
`metadata` dict, which `_merge_results` and `_rerank` never read, is
omitted).  Scores are rationals. -/

structure SearchResult where
  content : String
  source : String
  author : String
  docType : String
  page : Option Int
  score : ℚ
  method : String
  deriving DecidableEq, Repr

/-- Embedding of `DualSearchEngine._merge_results` (dual_search.py:222-244).
The accumulator pairs the `seen` key set (first-100-character prefixes) with
the merged list.  Vector results are added first; an archive result whose
key was already seen is dropped, otherwise it is re-tagged `"hybrid"` when
its `source` equals the source of some already-merged result, else
`"json"`. -/
def mergeResults (vector archive : List SearchResult) : List SearchResult :=
  let step1 := vector.foldl
    (fun (acc : List String × List SearchResult) r =>
      let key := r.content.take 100
      if acc.1.contains key then acc
      else (key :: acc.1, acc.2 ++ [r])) ([], [])
  let step2 := archive.foldl
    (fun (acc : List String × List SearchResult) r =>
      let key := r.content.take 100
      if acc.1.contains key then acc
      else
        let newMethod :=
          if acc.2.any (fun m => m.source == r.source) then "hybrid" else "json"
        (key :: acc.1, acc.2 ++ [{ r with method := newMethod }])) step1
  step2.2

/-- Embedding of the score-bonus pass of `DualSearchEngine._rerank`
(dual_search.py:270-278): vector hits gain 0.2, hybrid hits 0.3. -/
def rerankBonus (r : SearchResult) : SearchResult :=
  if r.method = "vector" then { r with score := r.score + (2 : ℚ) / 10 }
  else if r.method = "hybrid" then { r with score := r.score + (3 : ℚ) / 10 }
  else r

/-- A vector hit used as the failing input for claim C2. -/
def c2VectorHit : SearchResult :=
  { content := "Gnade bezeichnet die freie Zuwendung Gottes zum Menschen.",
    source := "TRE", author := "Various", docType := "dictionary",
    page := some 7, score := 1, method := "vector" }

/-- The same chunk text found independently by the JSON keyword scan. -/
def c2JsonHit : SearchResult :=
  { content := "Gnade bezeichnet die freie Zuwendung Gottes zum Menschen.",
    source := "TRE", author := "Various", docType := "dictionary",
    page := some 7, score := 1 / 2, method := "json" }

/-! ## Lemma detection carry-forward and chunk-index assignment
(`utils/local_pdf_processor.py:718-759` and the identical logic in
`_process_text_content:439-464`)

The lemma detector `extract_lemma` is passed in as a function parameter
`detect`; the theorems hold for every detector, in particular the real one.
Python truthiness of an `Optional[str]` (`None` and `""` are falsy) is
modelled by `optTruthy`. -/

def optTruthy : Option String → Bool
  | some l => !l.isEmpty
  | none => false

/-- First pass (local_pdf_processor.py:719-725): each chunk is assigned the
carried-forward current lemma, updated whenever `detect` returns a truthy
headword. -/
def chunkLemmasAux (detect : String → Option String) (cur : Option String) :
    List String → List (Option String)
  | [] => []
  | c :: rest =>
    let cur2 :=
      match detect c with
      | some l => if l.isEmpty then cur else some l
      | none => cur
    cur2 :: chunkLemmasAux detect cur2 rest

def chunkLemmas (detect : String → Option String) (chunks : List String) :
    List (Option String) :=
  chunkLemmasAux detect none chunks

/-- Second pass (local_pdf_processor.py:727-731): per-lemma chunk counts over
the truthy entries. -/
def lemmaChunkCounts (ls : List (Option String)) (L : String) : Nat :=
  (ls.filter optTruthy).countP (fun o => o == some L)

/-- Third pass (local_pdf_processor.py:751-759): each chunk receives
`(lemma, lemma_chunk_index, lemma_total_chunks)`; the running per-lemma
counter `f` is bumped on every truthy occurrence. -/
def assignLemmaMetaAux (total f : String → Nat) :
    List (Option String) → List (Option String × Option Nat × Option Nat)
  | [] => []
  | none :: rest => (none, none, none) :: assignLemmaMetaAux total f rest
  | some L :: rest =>
    if L.isEmpty then (some L, none, none) :: assignLemmaMetaAux total f rest
    else
      (some L, some (f L + 1), some (total L)) ::
        assignLemmaMetaAux total (fun s => if s = L then f s + 1 else f s) rest

def assignLemmaMeta (ls : List (Option String)) :
    List (Option String × Option Nat × Option Nat) :=
  assignLemmaMetaAux (fun L => lemmaChunkCounts ls L) (fun _ => 0) ls

/-- A concrete lemma detector used only to witness claim C3. -/
def c3Detect (s : String) : Option String :=
  if s = "GNADE, die freie Zuwendung" then some "GNADE" else none

/-! ## Samples-based page mapping (`utils/page_mapping_loader.py:73-162`)

A mapping-file sample `{pdf, print, note}` is a `Sample` (the free-text
`note` is never read by the algorithm).  `print` values are modelled as
integers (the sidecar schema's page numbers); `None` marks plate/blank
pages.  The Python dict writes of `_process_samples_mapping` become
`pmInsert` (overwrite-or-append, preserving first-insertion order exactly
as a Python dict does). -/

structure Sample where
  pdf : Int
  print : Option Int
  deriving DecidableEq, Repr

/-- Insertion into an insertion-ordered map: overwrite the existing key or
append at the end — the update semantics of a Python dict. -/
def pmInsert (m : List (Int × Option Int)) (k : Int) (v : Option Int) :
    List (Int × Option Int) :=
  if m.any (fun e => e.1 == k) then
    m.map (fun e => if e.1 == k then (k, v) else e)
  else m ++ [(k, v)]

/-- Stable insertion used by `pySortBy`: `x` goes after every element
strictly preceding it under `lt`. -/
def pyInsortBy {α : Type} (lt : α → α → Bool) (x : α) : List α → List α
  | [] => [x]
  | y :: ys => if lt y x then y :: pyInsortBy lt x ys else x :: y :: ys

/-- Python `sorted(l, key=...)`: a stable sort.  Stability and the sorted
order agree with CPython's Timsort for the purposes of this development. -/
def pySortBy {α : Type} (lt : α → α → Bool) : List α → List α
  | [] => []
  | x :: xs => pyInsortBy lt x (pySortBy lt xs)

/-- The interpolation loop of `_process_samples_mapping`
(page_mapping_loader.py:112-140): each valid sample is written into the
map, and every physical page strictly between two consecutive valid samples
that is not an irregular sample gets the earlier sample's offset applied —
the source runs the same assignment in both the equal-offset and the
unequal-offset branch (lines 130-140), which the `if` below mirrors. -/
def interpValidSamples (irregulars : List Int) :
    List (Int × Option Int) → List (Int × Int) → List (Int × Option Int)
  | m, [] => m
  | m, [c] => pmInsert m c.1 (some c.2)
  | m, c :: t :: rest =>
    let m1 := pmInsert m c.1 (some c.2)
    let offC := c.1 - c.2
    let offN := t.1 - t.2
    let m2 :=
      if offC = offN then
        (intRange (c.1 + 1) t.1).foldl
          (fun mm p => if irregulars.contains p then mm
            else pmInsert mm p (some (p - offC))) m1
      else
        (intRange (c.1 + 1) t.1).foldl
          (fun mm p => if irregulars.contains p then mm
            else pmInsert mm p (some (p - offC))) m1
    interpValidSamples irregulars m2 (t :: rest)

/-- The after-last-sample extension of `_process_samples_mapping`
(page_mapping_loader.py:142-150): pages after the last valid sample, up to
`total_pages` (default: last sample + 100), get the last sample's offset,
skipping keys already present. -/
def afterLastPass (tp : Option Int) (vp : List (Int × Int))
    (m : List (Int × Option Int)) : List (Int × Option Int) :=
  match vp.getLast? with
  | none => m
  | some last =>
    let lastOff := last.1 - last.2
    let maxPage := tp.getD (last.1 + 100)
    (intRange (last.1 + 1) (maxPage + 1)).foldl
      (fun mm p => if pageMapHasKey mm p then mm
        else pmInsert mm p (some (p - lastOff))) m

/-- The before-first-sample extension of `_process_samples_mapping`
(page_mapping_loader.py:152-159): pages before the first valid sample get
the first sample's offset when the result is positive and `None`
otherwise, skipping keys already present. -/
def beforeFirstPass (vp : List (Int × Int)) (m : List (Int × Option Int)) :
    List (Int × Option Int) :=
  match vp.head? with
  | none => m
  | some first =>
    let firstOff := first.1 - first.2
    (intRange 1 first.1).foldl
      (fun mm p => if pageMapHasKey mm p then mm
        else pmInsert mm p (if p - firstOff > 0 then some (p - firstOff) else none)) m

/-- Embedding of `_process_samples_mapping` (page_mapping_loader.py:73-162),
returning the built page map (the summary fields of `MappingResult` play no
role in page resolution).  `totalPages` is the optional `total_pages` field
of the mapping file. -/
def processSamplesMapping (samples : List Sample) (totalPages : Option Int) :
    List (Int × Option Int) :=
  if samples.isEmpty then []
  else
    let sorted := pySortBy (fun a b => decide (a.pdf < b.pdf)) samples
    let validPairs := sorted.filterMap
      (fun s => match s.print with | some p => some (s.pdf, p) | none => none)
    let irregulars := (sorted.filter (fun s => s.print.isNone)).map (fun s => s.pdf)
    let m1 := sorted.foldl
      (fun m s => match s.print with
        | none => pmInsert m s.pdf none
        | some _ => m) ([] : List (Int × Option Int))
    let m2 := interpValidSamples irregulars m1 validPairs
    beforeFirstPass validPairs (afterLastPass totalPages validPairs m2)

/-- Verification predicate: every numeric value in the page map is its key
minus the constant offset `d`. -/
def mapInv (d : Int) (m : List (Int × Option Int)) : Prop :=
  ∀ e ∈ m, ∀ n : Int, e.2 = some n → n = e.1 - d

/-! ## Lemma index builder (`tools/build_lemma_index.py`)

The main index `entries : Dict[str, List[Dict]]` becomes an
insertion-ordered association list keyed by normalized lemma.  An index
entry dict is `IdxEntry` with `Option` fields: `add_entry` writes a field
only when the corresponding argument is Python-truthy, and entries loaded
from a previously saved index may lack any field (`purge_file` reads
`e.get("file")`, which `file : Option String` mirrors).  JSON parsing
(`stream_json_entries` / `get_entry_field`) is abstracted: an archive file
is given together with the list of already-extracted raw entries it yields;
the auxiliary indices `by_category`/`by_source` reference no file names and
are fully rebuilt from `entries` at the end of every run, so they are not
modelled. -/

structure IdxEntry where
  file : Option String
  page : Option Int
  source : Option String
  volume : Option Int
  category : Option (List String)
  language : Option String
  related : Option (List String)
  deriving DecidableEq, Repr

/-- A raw entry of an archive JSON file, after the `get_entry_field`
extraction of build_lemma_index.py:349-362. -/
structure RawEntry where
  rawLemma : Option String
  page : Option Int
  source : Option String
  volume : Option Int
  category : Option (List String)
  language : Option String
  related : Option (List String)
  deriving DecidableEq, Repr

/-- An archive JSON file: name, modification time, parsed entries. -/
structure ArchiveFile where
  name : String
  mtime : Int
  entries : List RawEntry
  deriving DecidableEq, Repr

/-- `normalize_lemma` (build_lemma_index.py:104-106). -/
def normalizeLemma (l : String) : String := pyLower (pyStrip l)

/-- Python truthiness of an optional int (`None` and `0` are falsy). -/
def intTruthy : Option Int → Bool
  | some v => v != 0
  | none => false

/-- Python truthiness of an optional list (`None` and `[]` are falsy). -/
def listTruthy : Option (List String) → Bool
  | some l => !l.isEmpty
  | none => false

/-- Append to a `defaultdict(list)` bucket: extend the existing key's list
or create the key at the end (Python dict insertion order). -/
def entriesAppend (es : List (String × List IdxEntry)) (k : String)
    (e : IdxEntry) : List (String × List IdxEntry) :=
  if es.any (fun kv => kv.1 == k) then
    es.map (fun kv => if kv.1 == k then (kv.1, kv.2 ++ [e]) else kv)
  else es ++ [(k, [e])]

/-- Embedding of `EnhancedLemmaIndexer.add_entry`
(build_lemma_index.py:147-189), restricted to the main `entries` index:
the entry dict always carries `file` and `page`; the remaining fields are
written only when truthy. -/
def addEntry (es : List (String × List IdxEntry)) (lem file : String)
    (page : Option Int) (source : Option String) (volume : Option Int)
    (category : Option (List String)) (language : Option String)
    (related : Option (List String)) : List (String × List IdxEntry) :=
  let norm := normalizeLemma lem
  let entry : IdxEntry :=
    { file := some file
      page := page
      source := if optTruthy source then source else none
      volume := if intTruthy volume then volume else none
      category := if listTruthy category then category else none
      language := if optTruthy language then language else none
      related := if listTruthy related then related else none }
  entriesAppend es norm entry

/-- Embedding of `EnhancedLemmaIndexer.purge_file`
(build_lemma_index.py:191-198): every lemma's list keeps only entries whose
`file` field differs from `filename`, and lemmas whose list becomes empty
are removed. -/
def purgeFile (es : List (String × List IdxEntry)) (filename : String) :
    List (String × List IdxEntry) :=
  (es.map (fun kv => (kv.1, kv.2.filter (fun e => e.file != some filename)))).filter
    (fun kv => !kv.2.isEmpty)

/-- The per-file indexing loop body (build_lemma_index.py:349-378): every
raw entry with a truthy lemma is added. -/
def processFileEntries (es : List (String × List IdxEntry)) (filename : String)
    (items : List RawEntry) : List (String × List IdxEntry) :=
  items.foldl
    (fun acc it =>
      if optTruthy it.rawLemma then
        addEntry acc (it.rawLemma.getD "") filename it.page it.source
          it.volume it.category it.language it.related
      else acc) es

/-- Lookup in the mtime bookkeeping map `file_metadata`. -/
def metaLookup (md : List (String × Int)) (k : String) : Option Int :=
  (md.find? (fun e => e.1 == k)).map (fun e => e.2)

/-- `del file_metadata[k]`. -/
def metaErase (md : List (String × Int)) (k : String) : List (String × Int) :=
  md.filter (fun e => e.1 != k)

/-- `file_metadata[k] = v` (overwrite or append). -/
def metaSet (md : List (String × Int)) (k : String) (v : Int) :
    List (String × Int) :=
  if md.any (fun e => e.1 == k) then
    md.map (fun e => if e.1 == k then (k, v) else e)
  else md ++ [(k, v)]

/-- Embedding of the incremental main flow of build_lemma_index.py:276-394
(in-memory: the prior persisted index and mtime map are inputs, the updated
ones the output).  `force` discards prior state; the current archive scan
excludes the two index files; unchanged files are skipped; deleted or
modified files are purged (the Python set union of purge targets is a list
here — purges of distinct names commute, and the claim's scenario purges a
single file) and modified files re-scanned; when nothing changed the run
exits early leaving the persisted state untouched.  The auxiliary-index
rebuild that follows mutates only `by_category`/`by_source`, never
`entries`. -/
def buildRun (prior : List (String × List IdxEntry))
    (priorMeta : List (String × Int)) (current : List ArchiveFile)
    (force : Bool) :
    List (String × List IdxEntry) × List (String × Int) :=
  let entries0 := if force then [] else prior
  let meta0 := if force then [] else priorMeta
  let currentFiles := current.filter
    (fun f => f.name != "lemma_index.json" && f.name != "lemma_index_meta.json")
  let newOrModified := currentFiles.filter
    (fun f => match metaLookup meta0 f.name with
      | none => true
      | some m => m != f.mtime)
  let deletedFiles := (meta0.map (fun e => e.1)).filter
    (fun n => !(currentFiles.any (fun f => f.name == n)))
  if newOrModified.isEmpty && deletedFiles.isEmpty && !force
      && !entries0.isEmpty then
    (entries0, meta0)
  else
    let filesToPurge := deletedFiles ++ (newOrModified.map (fun f => f.name))
    let purged := filesToPurge.foldl
      (fun (acc : List (String × List IdxEntry) × List (String × Int)) n =>
        (purgeFile acc.1 n, metaErase acc.2 n)) (entries0, meta0)
    newOrModified.foldl
      (fun (acc : List (String × List IdxEntry) × List (String × Int)) f =>
        (processFileEntries acc.1 f.name f.entries, metaSet acc.2 f.name f.mtime))
      purged

/-- The entry list the index associates with lemma key `L` (empty when the
key is absent). -/
def entriesFor (idx : List (String × List IdxEntry)) (L : String) :
    List IdxEntry :=
  match idx.find? (fun kv => kv.1 == L) with
  | some kv => kv.2
  | none => []

/-! ## Chunkers (`pipeline/chunker.py`, `pipeline/semantic_chunker.py`)

The langchain `RecursiveCharacterTextSplitter` is an external collaborator:
`split_document` receives its raw output as the parameter `rawChunks`.
`_find_robust_offset` ends in a Python float proportional mapping, so the
offset computation is abstracted as the parameter `findOffset`; the
theorems below are quantified over both, hence hold in particular for the
real ones.  Likewise the `re`-based `_split_by_heading` of the semantic
chunker and the verse-pattern split of `_chunk_commentary` are passed in as
`splitHeading` / `parts`+`refs`. -/

/-- Python `hay.find(sub)` on character lists: first index or `-1`. -/
def lfindAux : List Char → List Char → Int → Int
  | hay, sub, i =>
    if lstarts sub hay then i
    else match hay with
      | [] => -1
      | _ :: t => lfindAux t sub (i + 1)

/-- Python `hay.find(sub)`. -/
def pyFind (hay sub : String) : Int := lfindAux hay.data sub.data 0

/-- `MIN_CHUNK_LENGTH` (chunker.py:41). -/
def MIN_CHUNK_LENGTH : Nat := 100

/-- Embedding of `TheologyChunker.split_document` (chunker.py:23-62): drop
raw fragments shorter than `MIN_CHUNK_LENGTH`, then pair each chunk with
its best-effort offset, threading `prev_offset = max(0, start + len/2)`. -/
def splitDocument (findOffset : String → String → Int → Int)
    (text : String) (rawChunks : List String) : List (String × Int) :=
  let filtered := rawChunks.filter (fun c => decide (MIN_CHUNK_LENGTH ≤ c.length))
  (filtered.foldl
    (fun (acc : List (String × Int) × Int) c =>
      let start := findOffset text c acc.2
      (acc.1 ++ [(c, start)], max 0 (start + (c.length : Int) / 2)))
    ([], 0)).1

/-- A semantic chunk (semantic_chunker.py:24-31); the per-strategy metadata
dict keys become the optional `m…` fields. -/
structure SemChunk where
  content : String
  chunkType : String
  startIndex : Int
  endIndex : Int
  mLemma : Option String := none
  mSubIndex : Option Nat := none
  mHeading : Option String := none
  mParaIndex : Option Nat := none
  mVerseRef : Option String := none
  deriving DecidableEq, Repr

/-- Last index of a newline inside a character list, if any. -/
def lastNewlineIdx (l : List Char) : Option Nat :=
  (l.reverse.findIdx? (fun c => c = '\n')).map (fun j => l.length - 1 - j)

/-- The separator scan of `re.split(r'\n\s*\n', text)`
(semantic_chunker.py:267): a separator is a newline, a greedy whitespace
run, and a final newline (the last newline of the run, by backtracking).
`fuel` only drives structural recursion: every step consumes at least one
character, so `paraSplit` supplies enough for the scan to finish. -/
def paraSplitAux : Nat → List Char → List Char → List String
  | _, [], cur => [String.mk cur.reverse]
  | 0, l, cur => [String.mk (cur.reverse ++ l)]
  | fuel + 1, c :: rest, cur =>
    if c = '\n' then
      let ws := rest.takeWhile pySpaceChar
      match lastNewlineIdx ws with
      | some k => String.mk cur.reverse :: paraSplitAux fuel (rest.drop (k + 1)) []
      | none => paraSplitAux fuel rest (c :: cur)
    else paraSplitAux fuel rest (c :: cur)

/-- `re.split(r'\n\s*\n', text)`. -/
def paraSplit (text : String) : List String :=
  paraSplitAux text.data.length text.data []

/-- Embedding of `SemanticChunker._split_by_paragraph`
(semantic_chunker.py:264-288): strip each paragraph, drop empty ones, merge
adjacent paragraphs up to `max_size * 4` characters, flushing the current
buffer when it would overflow. -/
def splitByParagraph (text : String) (maxSize : Nat) : List String :=
  let r := (paraSplit text).foldl
    (fun (acc : List String × String) para0 =>
      let para := pyStrip para0
      if para.isEmpty then acc
      else if decide (acc.2.length + para.length > maxSize * 4) then
        (if acc.2.isEmpty then acc.1 else acc.1 ++ [acc.2], para)
      else (acc.1, if acc.2.isEmpty then para else acc.2 ++ "\n\n" ++ para))
    ([], "")
  if r.2.isEmpty then r.1 else r.1 ++ [r.2]

/-- Character class `[α-ωΑ-Ωἀ-ῷ]` of `LEMMA_PATTERN`
(semantic_chunker.py:51-54). -/
def isGreekLemmaChar (c : Char) : Bool :=
  (0x3B1 ≤ c.toNat && c.toNat ≤ 0x3C9) || (0x391 ≤ c.toNat && c.toNat ≤ 0x3A9)
    || (0x1F00 ≤ c.toNat && c.toNat ≤ 0x1FF7)

/-- Character class `[א-ת]`. -/
def isHebrewChar (c : Char) : Bool :=
  0x5D0 ≤ c.toNat && c.toNat ≤ 0x5EA

/-- Character class `[a-zA-Z]`. -/
def isLatinChar (c : Char) : Bool :=
  ('a' ≤ c && c ≤ 'z') || ('A' ≤ c && c ≤ 'Z')

/-- `LEMMA_PATTERN.match(line)`: a maximal non-empty leading run from one
of the three alternated classes, optional whitespace, then `(` or `[`;
shorter runs cannot satisfy the tail (the next char is a class letter), so
the maximal run is the only candidate, as under `re` backtracking. -/
def lemmaLineMatch (line : String) : Option String :=
  let cs := line.data
  let tryClass := fun (cls : Char → Bool) =>
    let run := cs.takeWhile cls
    if run.isEmpty then none
    else
      let rest := (cs.drop run.length).dropWhile pySpaceChar
      match rest with
      | '(' :: _ => some (String.mk run)
      | '[' :: _ => some (String.mk run)
      | _ => none
  match tryClass isGreekLemmaChar with
  | some r => some r
  | none =>
    match tryClass isHebrewChar with
    | some r => some r
    | none => tryClass isLatinChar

/-- Python `text.split('\n')` (kernel-computable form of
`String.splitOn "\n"`). -/
def splitLinesAux : List Char → List Char → List String
  | [], cur => [String.mk cur.reverse]
  | c :: rest, cur =>
    if c = '\n' then String.mk cur.reverse :: splitLinesAux rest []
    else splitLinesAux rest (c :: cur)

def splitLines (text : String) : List String := splitLinesAux text.data []

/-- `'\n'.join(lines)` (kernel-computable form of `String.intercalate`). -/
def joinLines : List String → String
  | [] => ""
  | [s] => s
  | s :: rest => s ++ "\n" ++ joinLines rest

/-- Embedding of `SemanticChunker._split_by_lemma`
(semantic_chunker.py:211-236): group lines into entries, a new entry
starting at every line matching `LEMMA_PATTERN`. -/
def splitByLemma (text : String) : List (String × String) :=
  let lines := splitLines text
  let st := lines.foldl
    (fun (acc : List (String × String) × List String × String) line =>
      match lemmaLineMatch line with
      | some lem =>
        (if acc.2.1.isEmpty then acc.1
         else acc.1 ++ [(joinLines acc.2.1, acc.2.2)],
         [line], lem)
      | none => (acc.1, acc.2.1 ++ [line], acc.2.2))
    ([], [], "")
  let entries :=
    if st.2.1.isEmpty then st.1
    else st.1 ++ [(joinLines st.2.1, st.2.2)]
  if entries.isEmpty then [(text, "")] else entries

/-- Embedding of `SemanticChunker._chunk_dogmatics`
(semantic_chunker.py:186-209), with the heading split passed in. -/
def chunkDogmatics (splitHeading : String → List (String × String))
    (text : String) (maxSize : Nat) : List SemChunk :=
  (splitHeading text).foldl
    (fun acc se =>
      acc ++ ((splitByParagraph se.1 maxSize).enum.foldl
        (fun (acc2 : List SemChunk) ip =>
          if decide ((pyStrip ip.2).length < 50) then acc2
          else acc2 ++ [{ content := ip.2
                          chunkType := if se.2.isEmpty then "paragraph" else "section"
                          startIndex := if decide (ip.2.length > 50)
                            then pyFind text (ip.2.take 50) else 0
                          endIndex := 0
                          mHeading := some se.2
                          mParaIndex := some ip.1 }]) []))
    []

/-- The entry loop of `SemanticChunker._chunk_dictionary`
(semantic_chunker.py:114-141): entries with stripped length < 50 are
dropped; entries longer than `max_size * 4` are re-split by paragraph and
the sub-chunks emitted unchecked. -/
def chunkDictionaryCore (text : String) (maxSize : Nat) : List SemChunk :=
  (splitByLemma text).foldl
    (fun acc el =>
      if decide ((pyStrip el.1).length < 50) then acc
      else if decide (el.1.length > maxSize * 4) then
        acc ++ ((splitByParagraph el.1 maxSize).enum.map
          (fun js => { content := js.2
                       chunkType := "entry"
                       startIndex := pyFind text (js.2.take 50)
                       endIndex := pyFind text (js.2.take 50) + (js.2.length : Int)
                       mLemma := some el.2
                       mSubIndex := some js.1 }))
      else
        acc ++ [{ content := el.1
                  chunkType := "entry"
                  startIndex := pyFind text (el.1.take 50)
                  endIndex := pyFind text (el.1.take 50) + (el.1.length : Int)
                  mLemma := some el.2 }])
    []

/-- Embedding of `SemanticChunker._chunk_dictionary`
(semantic_chunker.py:112-143); the dogmatics strategy is the fallback when
no chunk was produced. -/
def chunkDictionary (splitHeading : String → List (String × String))
    (text : String) (maxSize : Nat) : List SemChunk :=
  let chunks := chunkDictionaryCore text maxSize
  if chunks.isEmpty then chunkDogmatics splitHeading text maxSize else chunks

/-- The part loop of `SemanticChunker._chunk_commentary`
(semantic_chunker.py:149-182): `parts`/`refs` are the outputs of the
verse-pattern `re.split`/`findall`; parts with stripped length < 30 are
dropped, oversize parts are re-split by paragraph unchecked. -/
def chunkCommentaryCore (parts refs : List String) (text : String)
    (maxSize : Nat) : List SemChunk :=
  parts.enum.foldl
    (fun (acc : List SemChunk) ip =>
      if decide ((pyStrip ip.2).length < 30) then acc
      else
        let ref := if 0 < ip.1 ∧ ip.1 ≤ refs.length
          then pyStrip (refs.getD (ip.1 - 1) "") else ""
        if decide (ip.2.length > maxSize * 4) then
          acc ++ ((splitByParagraph ip.2 maxSize).enum.map
            (fun js => { content := js.2
                         chunkType := "verse"
                         startIndex := if decide (js.2.length > 50)
                           then pyFind text (js.2.take 50) else 0
                         endIndex := 0
                         mVerseRef := some ref
                         mSubIndex := some js.1 }))
        else
          acc ++ [{ content := pyStrip ip.2
                    chunkType := "verse"
                    startIndex := if decide (ip.2.length > 50)
                      then pyFind text (ip.2.take 50) else 0
                    endIndex := 0
                    mVerseRef := some ref }])
    []

/-- Embedding of `SemanticChunker._chunk_commentary`
(semantic_chunker.py:145-184); the dogmatics strategy is the fallback when
no chunk was produced. -/
def chunkCommentary (splitHeading : String → List (String × String))
    (parts refs : List String) (text : String) (maxSize : Nat) :
    List SemChunk :=
  let chunks := chunkCommentaryCore parts refs text maxSize
  if chunks.isEmpty then chunkDogmatics splitHeading text maxSize else chunks

/-- Input exhibiting the oversize-entry fallback of the dictionary
strategy: one lemma entry ("ab") of more than 4 × 400 characters whose
final paragraph is the two-character string "zz". -/
def c5Text : String :=
  "ab (x)\n" ++ String.mk (List.replicate 1700 'A') ++ "\n\nzz"

/-- A commentary part of exactly 50 characters, used as witness input. -/
def c5Part : String := String.mk (List.replicate 50 'a')

/-! ## A mini regular-expression engine

`metadata_parser.py` and `local_pdf_processor.extract_dictionary_info`
use `re` with a small construct set: single-character classes under
greedy/lazy quantifiers, alternations of literals, and the `$` anchor.
`rmatch` is a backtracking matcher over that construct set with Python's
leftmost/priority semantics (lazy tries shortest first, greedy longest
first, alternatives in order); `rsearch` adds `re.search`'s leftmost
scan.  `fuel` only drives structural recursion so that the matcher
computes inside the kernel; each step consumes one unit and the patterns
in this file need depth far below the supplied fuel. -/

def firstSome {α β : Type} (f : α → Option β) : List α → Option β
  | [] => none
  | x :: xs => match f x with | some r => some r | none => firstSome f xs

inductive RQuant where
  | exactly (n : Nat)
  | plusGreedy
  | plusLazy
  | starGreedy
  | optGreedy
  deriving Repr

inductive RNode where
  | cls (p : Char → Bool) (q : RQuant) (grp : Option Nat)
  | alts (choices : List (List RNode)) (optional : Bool)
  | endAnchor

/-- Backtracking matcher anchored at the start of `cs`; returns the capture
bindings (group id, consumed characters) of the first match under Python's
priority order, or `none`. -/
def rmatch : Nat → List RNode → List Char → List (Nat × List Char) →
    Option (List (Nat × List Char))
  | 0, _, _, _ => none
  | _ + 1, [], _, acc => some acc
  | fuel + 1, RNode.endAnchor :: rest, cs, acc =>
    if cs.isEmpty then rmatch fuel rest cs acc else none
  | fuel + 1, RNode.cls p q g :: rest, cs, acc =>
    let maxRun := (cs.takeWhile p).length
    let counts : List Nat :=
      match q with
      | RQuant.exactly n => if n ≤ maxRun then [n] else []
      | RQuant.plusGreedy => (List.range maxRun).map (fun i => maxRun - i)
      | RQuant.plusLazy => (List.range maxRun).map (fun i => i + 1)
      | RQuant.starGreedy => (List.range (maxRun + 1)).map (fun i => maxRun - i)
      | RQuant.optGreedy => if 1 ≤ maxRun then [1, 0] else [0]
    firstSome
      (fun k =>
        let acc2 := match g with
          | some n => acc ++ [(n, cs.take k)]
          | none => acc
        rmatch fuel rest (cs.drop k) acc2) counts
  | fuel + 1, RNode.alts choices opt :: rest, cs, acc =>
    match firstSome (fun choice => rmatch fuel (choice ++ rest) cs acc) choices with
    | some r => some r
    | none => if opt then rmatch fuel rest cs acc else none

/-- `re.search`: try a match at every position, leftmost first. -/
def rsearch (fuel : Nat) (nodes : List RNode) :
    List Char → Option (List (Nat × List Char))
  | [] => rmatch fuel nodes [] []
  | c :: t =>
    match rmatch fuel nodes (c :: t) [] with
    | some b => some b
    | none => rsearch fuel nodes t

/-- Text of a captured group. -/
def groupStr (b : List (Nat × List Char)) (g : Nat) : Option String :=
  (b.find? (fun e => e.1 == g)).map (fun e => String.mk e.2)

/-- A literal character. -/
def rlit (c : Char) : RNode := RNode.cls (fun x => x = c) (RQuant.exactly 1) none

/-- A case-insensitive literal character (`re.IGNORECASE`). -/
def rlitCI (c : Char) : RNode :=
  RNode.cls (fun x => pyLowerChar x = pyLowerChar c) (RQuant.exactly 1) none

def rlitStr (s : String) : List RNode := s.data.map rlit

def rlitStrCI (s : String) : List RNode := s.data.map rlitCI

/-- `\d` (the filenames handled here are ASCII). -/
def digitCls (c : Char) : Bool := '0' ≤ c && c ≤ '9'

/-- `\w` (ASCII scope, as above). -/
def wordCls (c : Char) : Bool := c.isAlphanum || c = '_'

/-- `.` (anything but a newline). -/
def dotCls (c : Char) : Bool := c ≠ '\n'

def digitsToNat (s : String) : Nat :=
  s.data.foldl (fun acc c => acc * 10 + (c.toNat - 48)) 0

/-! ## Dictionary info extraction (`utils/local_pdf_processor.py:168-206`) -/

def DICTIONARY_ABBREVS : List (String × String) :=
  [("TDNT", "Theological Dictionary of the New Testament"),
   ("NIDNTT", "New International Dictionary of NT Theology"),
   ("EDNT", "Exegetical Dictionary of the NT"),
   ("ThWAT", "Theologisches Wörterbuch zum Alten Testament"),
   ("EWNT", "Exegetisches Wörterbuch zum Neuen Testament"),
   ("EKL", "Evangelisches Kirchenlexikon"),
   ("RGG", "Religion in Geschichte und Gegenwart"),
   ("HWPh", "Historisches Wörterbuch der Philosophie"),
   ("TRE", "Theologische Realenzyklopädie"),
   ("Theologische", "TRE"),
   ("KD", "Kirchliche Dogmatik")]

/-- Python `str.split()`: split on whitespace runs, dropping empties. -/
def pySplitWsAux : List Char → List Char → List String
  | [], cur => if cur.isEmpty then [] else [String.mk cur.reverse]
  | c :: rest, cur =>
    if pySpaceChar c then
      if cur.isEmpty then pySplitWsAux rest []
      else String.mk cur.reverse :: pySplitWsAux rest []
    else pySplitWsAux rest (c :: cur)

def pySplitWs (s : String) : List String := pySplitWsAux s.data []

/-- The abbreviation loop of `extract_dictionary_info`
(local_pdf_processor.py:180-185): first table key occurring (case
insensitively) in the stem, with `"Theologische"` standing for `"TRE"`. -/
def extractDictAbbrev (stem : String) : Option String :=
  match DICTIONARY_ABBREVS.find?
      (fun kv => pyContains (pyLower stem) (pyLower kv.1)) with
  | some kv => some (if kv.1 = "Theologische" then "TRE" else kv.1)
  | none => none

/-- The fallback `stem.split('_')[0].split()[0].upper()`
(local_pdf_processor.py:188); `none` models the `IndexError` Python raises
when the first underscore-segment is empty or all-whitespace. -/
def fallbackAbbrev (stem : String) : Option String :=
  let firstSeg := String.mk (stem.data.takeWhile (fun c => c ≠ '_'))
  match pySplitWs firstSeg with
  | [] => none
  | w :: _ => some (pyUpper w)

/-- The five `volume_patterns` of `extract_dictionary_info`
(local_pdf_processor.py:191-197), compiled with `re.IGNORECASE`. -/
def volumePatterns : List (List RNode) :=
  [[RNode.alts [rlitStrCI "Vol", rlitStrCI "Bd", rlitStrCI "Band",
      rlitStrCI "권", rlitStrCI "V"] false,
    RNode.cls (fun c => c = '.' || c = '-' || c = '_' || pySpaceChar c)
      RQuant.optGreedy none,
    RNode.cls digitCls RQuant.plusGreedy (some 1)],
   [RNode.cls digitCls RQuant.plusGreedy (some 1),
    RNode.alts [RNode.cls pySpaceChar RQuant.starGreedy none :: rlitStrCI "권",
      RNode.cls pySpaceChar RQuant.starGreedy none :: rlitStrCI "Bd"] false],
   [RNode.cls (fun c => c = ',' || pySpaceChar c) (RQuant.exactly 1) none,
    RNode.cls digitCls RQuant.plusGreedy (some 1),
    RNode.cls (fun c => pySpaceChar c || c = ',') (RQuant.exactly 1) none],
   [RNode.cls pySpaceChar (RQuant.exactly 1) none,
    RNode.cls digitCls RQuant.plusGreedy (some 1),
    RNode.cls (fun c => pySpaceChar c || c = '_' || c = '-') (RQuant.exactly 1) none],
   [rlit '_',
    RNode.cls digitCls RQuant.plusGreedy (some 1),
    RNode.endAnchor]]

/-- The volume loop of `extract_dictionary_info`
(local_pdf_processor.py:199-204): first pattern whose search succeeds. -/
def extractVolume (stem : String) : Option Nat :=
  firstSome
    (fun pat => (rsearch 1000 pat stem.data).bind
      (fun b => (groupStr b 1).map digitsToNat))
    volumePatterns

/-- Embedding of `extract_dictionary_info` (local_pdf_processor.py:168-206). -/
def extractDictionaryInfo (filename : String) : Option (String × Option Nat) :=
  let stem := pyStem filename
  let abbr :=
    match extractDictAbbrev stem with
    | some a => some a
    | none => fallbackAbbrev stem
  match abbr with
  | none => none
  | some a => some (a, extractVolume stem)

/-! ## Chunk ID generation (`utils/local_pdf_processor.py:796-802`) -/

/-- Python `f"{i:04d}"`. -/
def pad4 (i : Nat) : String :=
  let s := toString i
  String.mk (List.replicate (4 - s.length) '0') ++ s

/-- The ID concatenation of local_pdf_processor.py:796-802: abbreviation,
then `_volume` when the volume is truthy, then the first 20 characters of
the lemma when the lemma is truthy, then the zero-padded sequence index. -/
def mkChunkId (abbr : String) (volume : Option Nat) (lem : Option String)
    (i : Nat) : String :=
  let s1 := abbr
  let s2 := match volume with
    | some v => if v ≠ 0 then s1 ++ "_" ++ toString v else s1
    | none => s1
  let s3 := match lem with
    | some l => if l.isEmpty then s2 else s2 ++ "_" ++ l.take 20
    | none => s2
  s3 ++ "_" ++ pad4 i

/-- The per-chunk record loop of `_process_pdf_content`
(local_pdf_processor.py:738-810) restricted to the fields the IDs and the
lemma metadata depend on, threading the running per-lemma counter and the
enumeration index exactly as the source loop does. -/
def buildChunkRecords (abbr : String) (volume : Option Nat)
    (total f : String → Nat) (i : Nat) :
    List (Option String) → List (String × Option String × Option Nat × Option Nat)
  | [] => []
  | none :: rest =>
    (mkChunkId abbr volume none i, none, none, none) ::
      buildChunkRecords abbr volume total f (i + 1) rest
  | some L :: rest =>
    if L.isEmpty then
      (mkChunkId abbr volume (some L) i, some L, none, none) ::
        buildChunkRecords abbr volume total f (i + 1) rest
    else
      (mkChunkId abbr volume (some L) i, some L, some (f L + 1), some (total L)) ::
        buildChunkRecords abbr volume total
          (fun s => if s = L then f s + 1 else f s) (i + 1) rest

/-- The chunk IDs produced by processing `filename` with detector `detect`
and splitter output `chunks`; `none` models the `IndexError` of
`extract_dictionary_info` on degenerate stems. -/
def processFileIds (detect : String → Option String) (filename : String)
    (chunks : List String) : Option (List String) :=
  (extractDictionaryInfo filename).map
    (fun av =>
      let lemmas := chunkLemmas detect chunks
      (buildChunkRecords av.1 av.2 (fun L => lemmaChunkCounts lemmas L)
        (fun _ => 0) 0 lemmas).map (fun r => r.1))

/-! ## Metadata parser (`pipeline/metadata_parser.py`)

Confidence scores are scaled to integer percent (`0.9` ↦ 90, `0.85` ↦ 85,
`0.7` ↦ 70, `0.95` ↦ 95, `0.3` ↦ 30, threshold `0.5` ↦ 50): the source
only ever compares these literals, and the scaling is order-exact, so every
comparison agrees with the Python floats. -/

def DOC_TYPE_PRESETS : List (String × Nat × Nat) :=
  [("dogmatics", 2000, 400), ("dictionary", 1500, 300),
   ("commentary", 1000, 150), ("general", 1000, 150)]

/-- `DOC_TYPE_PRESETS.get(doc_type, DOC_TYPE_PRESETS["general"])`. -/
def presetFor (docType : String) : Nat × Nat :=
  match DOC_TYPE_PRESETS.find? (fun kv => kv.1 == docType) with
  | some kv => kv.2
  | none => (1000, 150)

def KNOWN_AUTHORS : List (String × String) :=
  [("barth", "Karl Barth"), ("bonhoeffer", "Dietrich Bonhoeffer"),
   ("calvin", "John Calvin"), ("luther", "Martin Luther"),
   ("tillich", "Paul Tillich"), ("bultmann", "Rudolf Bultmann"),
   ("moltmann", "Jürgen Moltmann"), ("pannenberg", "Wolfhart Pannenberg"),
   ("welker", "Michael Welker"), ("jüngel", "Eberhard Jüngel"),
   ("jungel", "Eberhard Jüngel"), ("schleiermacher", "Friedrich Schleiermacher")]

def DICT_SERIES : List (String × String × String) :=
  [("tdnt", "Theological Dictionary of the New Testament", "TDNT"),
   ("nidntt", "New International Dictionary of NT Theology", "NIDNTT"),
   ("ednt", "Exegetical Dictionary of the NT", "EDNT"),
   ("twot", "Theological Wordbook of the OT", "TWOT"),
   ("nidotte", "New International Dictionary of OT Theology", "NIDOTTE"),
   ("tre", "Theologische Realenzyklopädie", "TRE"),
   ("rgg", "Religion in Geschichte und Gegenwart", "RGG"),
   ("ekl", "Evangelisches Kirchenlexikon", "EKL")]

/-- The record produced by `MetadataParser.parse`
(metadata_parser.py:70-102). -/
structure ParsedMetadata where
  author : String := "Unknown"
  title : String := ""
  year : Option Nat := none
  docType : String := "general"
  languages : List String := ["en"]
  theologyField : String := ""
  tags : List String := []
  series : Option String := none
  volume : Option Nat := none
  chunkSize : Nat := 800
  chunkOverlap : Nat := 100
  pageOffset : Int := 0
  confidence : Nat := 0
  deriving DecidableEq, Repr

/-- `PATTERN_1`: `Author - Title (Year).ext` (metadata_parser.py:111-113).
Groups: 1 author, 2 title, 3 year, 4 ext. -/
def PATTERN_1 : List RNode :=
  [RNode.cls (fun c => c ≠ '-') RQuant.plusLazy (some 1),
   RNode.cls pySpaceChar RQuant.starGreedy none, rlit '-',
   RNode.cls pySpaceChar RQuant.starGreedy none,
   RNode.cls dotCls RQuant.plusLazy (some 2),
   RNode.cls pySpaceChar RQuant.starGreedy none, rlit '(',
   RNode.cls digitCls (RQuant.exactly 4) (some 3),
   rlit ')', RNode.cls pySpaceChar RQuant.starGreedy none, rlit '.',
   RNode.cls wordCls RQuant.plusGreedy (some 4),
   RNode.endAnchor]

/-- `PATTERN_2`: `Author_Title_Year.ext` (metadata_parser.py:115-117). -/
def PATTERN_2 : List RNode :=
  [RNode.cls (fun c => c ≠ '_') RQuant.plusLazy (some 1), rlit '_',
   RNode.cls dotCls RQuant.plusLazy (some 2), rlit '_',
   RNode.cls digitCls (RQuant.exactly 4) (some 3), rlit '.',
   RNode.cls wordCls RQuant.plusGreedy (some 4),
   RNode.endAnchor]

/-- `PATTERN_3`: `Title - Author.ext` (metadata_parser.py:119-121).
Groups: 1 title, 2 author, 3 ext. -/
def PATTERN_3 : List RNode :=
  [RNode.cls dotCls RQuant.plusLazy (some 1),
   RNode.cls pySpaceChar RQuant.starGreedy none, rlit '-',
   RNode.cls pySpaceChar RQuant.starGreedy none,
   RNode.cls (fun c => c ≠ '(') RQuant.plusLazy (some 2), rlit '.',
   RNode.cls wordCls RQuant.plusGreedy (some 3),
   RNode.endAnchor]

/-- `PATTERN_DICT` (metadata_parser.py:123-126), `re.IGNORECASE`.
Groups: 1 series, 2 volume, 3 ext. -/
def PATTERN_DICT : List RNode :=
  [RNode.cls isLatinChar RQuant.plusGreedy (some 1),
   RNode.cls (fun c => pySpaceChar c || c = '_' || c = '-') RQuant.starGreedy none,
   RNode.alts [rlitStrCI "Vol" ++ [RNode.cls (fun c => c = '.') RQuant.optGreedy none],
     rlitStrCI "Band",
     rlitStrCI "Bd" ++ [RNode.cls (fun c => c = '.') RQuant.optGreedy none]] true,
   RNode.cls (fun c => pySpaceChar c || c = '_') RQuant.starGreedy none,
   RNode.cls digitCls RQuant.plusGreedy (some 2),
   rlit '.',
   RNode.cls wordCls RQuant.plusGreedy (some 3),
   RNode.endAnchor]

/-- `str.replace("_", " ")`. -/
def replaceUnderscores (s : String) : String :=
  String.mk (s.data.map (fun c => if c = '_' then ' ' else c))

/-- Python `str.capitalize()`. -/
def pyCapitalize (w : String) : String :=
  match w.data with
  | [] => ""
  | c :: rest => String.mk (pyUpperChar c :: rest.map pyLowerChar)

/-- `" ".join(words)`. -/
def joinSpace : List String → String
  | [] => ""
  | [s] => s
  | s :: rest => s ++ " " ++ joinSpace rest

/-- `MetadataParser._normalize_author` (metadata_parser.py:232-242). -/
def normalizeAuthor (authorRaw : String) : String :=
  let authorLower := pyStrip (replaceUnderscores (pyLower authorRaw))
  match KNOWN_AUTHORS.find? (fun kv => pyContains authorLower kv.1) with
  | some kv => kv.2
  | none => joinSpace ((pySplitWs authorRaw).map pyCapitalize)

/-- `YEAR_FALLBACK.search`: the regex `\b(19|20)\d{2}\b`
(metadata_parser.py:128, 244-249), hand-translated because of the word
boundaries: leftmost position not preceded by a word character, carrying
`19xx`/`20xx` digits not followed by a word character. -/
def extractYearFallback (s : String) : Option Nat :=
  let cs := s.data
  let n := cs.length
  firstSome
    (fun i =>
      let prevOk := i == 0 || !wordCls (cs.getD (i - 1) ' ')
      let c0 := cs.getD i ' '
      let c1 := cs.getD (i + 1) ' '
      let c2 := cs.getD (i + 2) ' '
      let c3 := cs.getD (i + 3) ' '
      let nextOk := n ≤ i + 4 || !wordCls (cs.getD (i + 4) ' ')
      if prevOk && ((c0 = '1' && c1 = '9') || (c0 = '2' && c1 = '0'))
          && digitCls c2 && digitCls c3 && nextOk then
        some (digitsToNat (String.mk [c0, c1, c2, c3]))
      else none)
    (List.range n)

/-- `MetadataParser._detect_doc_type` (metadata_parser.py:251-271). -/
def detectDocType (filePath title : String) : String :=
  let pathLower := pyLower filePath
  let titleLower := pyLower title
  let hit := fun (ks : List String) =>
    ks.any (fun k => pyContains pathLower k || pyContains titleLower k)
  if hit ["dictionary", "lexicon", "사전", "wörterbuch", "tdnt", "nidntt",
      "tre", "rgg"] then "dictionary"
  else if hit ["commentary", "kommentar", "주석", "exegesis"] then "commentary"
  else if hit ["philosophy", "philosophie", "철학", "hegel", "kant",
      "heidegger"] then "philosophy"
  else "dogmatics"

/-- `MetadataParser._detect_languages` (metadata_parser.py:273-285). -/
def detectLanguages (filePath : String) : List String :=
  let p := pyLower filePath
  let hit := fun (ks : List String) => ks.any (fun k => pyContains p k)
  let langs :=
    (if hit ["german", "deutsch", "_de_", "_deu"] then ["de"] else []) ++
    (if hit ["korean", "한국", "_ko_", "_kor"] then ["ko"] else []) ++
    (if hit ["english", "_en_", "_eng"] then ["en"] else [])
  if langs.isEmpty then ["en"] else langs

/-- `MetadataParser._enrich_metadata` (metadata_parser.py:287-302). -/
def enrichMetadata (meta : ParsedMetadata) (filePath : String) :
    ParsedMetadata :=
  let m1 := if meta.docType = "general" then
      { meta with docType := detectDocType filePath meta.title }
    else meta
  let preset := presetFor m1.docType
  let m2 := { m1 with chunkSize := preset.1, chunkOverlap := preset.2 }
  if m2.languages = ["en"] then
    { m2 with languages := detectLanguages filePath }
  else m2

/-- `MetadataParser._parse_author_title_year` (metadata_parser.py:167-180). -/
def handlerAuthorTitleYear (g : Nat → Option String) (_stem : String) :
    ParsedMetadata :=
  { author := normalizeAuthor (pyStrip ((g 1).getD ""))
    title := pyStrip ((g 2).getD "")
    year := some (digitsToNat ((g 3).getD ""))
    confidence := 90 }

/-- `MetadataParser._parse_underscore_format` (metadata_parser.py:182-195). -/
def handlerUnderscore (g : Nat → Option String) (_stem : String) :
    ParsedMetadata :=
  { author := normalizeAuthor (pyStrip (replaceUnderscores ((g 1).getD "")))
    title := pyStrip (replaceUnderscores ((g 2).getD ""))
    year := some (digitsToNat ((g 3).getD ""))
    confidence := 85 }

/-- `MetadataParser._parse_title_author` (metadata_parser.py:197-212). -/
def handlerTitleAuthor (g : Nat → Option String) (stem : String) :
    ParsedMetadata :=
  { author := normalizeAuthor (pyStrip ((g 2).getD ""))
    title := pyStrip ((g 1).getD "")
    year := extractYearFallback stem
    confidence := 70 }

/-- `MetadataParser._parse_dictionary_series` (metadata_parser.py:214-230). -/
def handlerDictionarySeries (g : Nat → Option String) (_stem : String) :
    ParsedMetadata :=
  let seriesKey := pyLower ((g 1).getD "")
  let volume := digitsToNat ((g 2).getD "")
  let abbr :=
    match DICT_SERIES.find? (fun kv => kv.1 == seriesKey) with
    | some kv => kv.2.2
    | none => pyUpper seriesKey
  { author := "Various"
    title := abbr ++ " Volume " ++ toString volume
    docType := "dictionary"
    series := some abbr
    volume := some volume
    chunkSize := 1500
    chunkOverlap := 300
    confidence := 95 }

/-- `MetadataParser._fallback_parse` (metadata_parser.py:304-328). -/
def fallbackParse (filePath : String) : ParsedMetadata :=
  let stem := pyStem filePath
  let title := pyStrip (String.mk (stem.data.map
    (fun c => if c = '_' then ' ' else if c = '-' then ' ' else c)))
  let year := extractYearFallback stem
  let dt := detectDocType filePath title
  let preset := presetFor dt
  { author := "Unknown"
    title := title
    year := year
    docType := dt
    languages := detectLanguages filePath
    chunkSize := preset.1
    chunkOverlap := preset.2
    confidence := 30 }

/-- The ordered pattern/handler table of `MetadataParser.__init__`
(metadata_parser.py:130-136). -/
def parserPatterns :
    List (List RNode × ((Nat → Option String) → String → ParsedMetadata)) :=
  [(PATTERN_1, handlerAuthorTitleYear),
   (PATTERN_2, handlerUnderscore),
   (PATTERN_DICT, handlerDictionarySeries),
   (PATTERN_3, handlerTitleAuthor)]

/-- Embedding of `MetadataParser.parse` (metadata_parser.py:138-165): the
first pattern that matches the filename and whose handler's confidence
exceeds 0.5 wins (enriched); otherwise the fallback parse. -/
def metadataParse (filePath : String) : ParsedMetadata :=
  let filename := pyName filePath
  let stem := pyStem filePath
  match firstSome
      (fun ph =>
        match rmatch 1000 ph.1 filename.data [] with
        | some b =>
          let res := ph.2 (fun g => groupStr b g) stem
          if res.confidence > 50 then some (enrichMetadata res filePath)
          else none
        | none => none)
      parserPatterns with
  | some r => r
  | none => fallbackParse filePath

/-- A concrete two-file lemma index used only to witness claim C7. -/
def c7Index : List (String × List IdxEntry) :=
  [("gnade", [⟨some "A.json", some 3, none, none, none, none, none⟩,
              ⟨some "B.json", some 9, none, none, none, none, none⟩]),
   ("logos", [⟨some "A.json", some 5, none, none, none, none, none⟩])]
/-! ## Theorems -/

/-- Claim C1, amended.  The processor's manual-offset branch is clamped:
`max(1, pdf_page - offset) ≥ 1` for every page and offset.  The offset-type
mapping file, in contrast, maps a page with `pdf_page - offset ≤ 0` to no
page at all (`None`) rather than to a clamped `1`; whenever it does resolve
to a numeric print page, that page is at least 1 — a non-positive page
number is never produced by either path. -/
theorem offset_mode_clamp :
    (∀ pdfPage pageOffset : Int, 1 ≤ resolveOffsetBranch pdfPage pageOffset) ∧
    (∀ offset totalPages pdfPage n : Int,
      getPrintPage (processOffsetMapping offset totalPages) pdfPage = some n →
      1 ≤ n) := by
  constructor
  · intro pdfPage pageOffset
    exact le_max_left 1 (pdfPage - pageOffset)
  · intro offset totalPages pdfPage n h
    unfold getPrintPage pageMapGet at h
    rcases hfind : (processOffsetMapping offset totalPages).find?
        (fun e => e.1 == pdfPage) with _ | e
    · rw [hfind] at h; exact absurd h (by simp)
    · rw [hfind] at h
      have hmem := List.mem_of_find?_eq_some hfind
      unfold processOffsetMapping at hmem
      rcases List.mem_map.mp hmem with ⟨p, _, hp⟩
      rw [← hp] at h
      simp only at h
      by_cases hpos : p - offset > 0
      · rw [if_pos hpos] at h
        have : p - offset = n := by exact Option.some.inj h
        omega
      · rw [if_neg hpos] at h
        exact absurd h (by simp)

/-- Witness for the amended claim C1 at concrete inputs: pdf page 3 with
manual offset 10 resolves to 1, and the offset-type mapping with offset 2
resolves pdf page 7 to print page 5 ≥ 1. -/
theorem offset_mode_clamp_witness :
    1 ≤ resolveOffsetBranch 3 10 ∧ (1 : Int) ≤ 5 :=
  ⟨offset_mode_clamp.1 3 10, offset_mode_clamp.2 2 500 7 5 (by decide)⟩

/-- Counterexample to claim C1 as stated: under the offset-type page mapping
with offset 5 (and 500 pages), resolving pdf page 3 does not return a print
page at all (the loader yields `None` for the non-positive value `-2`
instead of clamping it to 1 as the claim asserts). -/
theorem offset_mode_clamp_counterexample :
    getPrintPage (processOffsetMapping 5 500) 3 = none := by decide

/-- Claim C10: for every input path, `get_chunk_config` returns one of
exactly two presets, and it returns the dictionary preset `(400, 50,
"dictionary")` precisely when the parent-folder keyword test or the strong
filename keyword test fires; otherwise it returns `(1200, 150,
"dogmatics")`. -/
theorem router_totality_two_presets (filePath : String) :
    (getChunkConfig filePath = (400, 50, "dictionary") ∨
     getChunkConfig filePath = (1200, 150, "dogmatics")) ∧
    (getChunkConfig filePath = (400, 50, "dictionary") ↔
      (routerParentMatch filePath = true ∨ routerStrongMatch filePath = true)) := by
  unfold getChunkConfig
  by_cases hp : routerParentMatch filePath
  · simp [hp]
  · by_cases hs : routerStrongMatch filePath
    · simp [hp, hs]
    · simp [hp, hs]

/-- Claim C2 is the intent of the code (the comment on the hybrid bonus in
`_rerank` reads "highest score when found by both sides") but the
implementation misses it: when the identical chunk text is returned by both
the vector search and the JSON keyword scan, `_merge_results` drops the JSON
copy before the `"hybrid"` re-tagging can ever apply (the tag is decided by
comparing `source` fields, not text), so the single surviving entry keeps
method `"vector"` and receives the 0.2 vector bonus instead of the 0.3
hybrid bonus. -/
theorem hybrid_tag_code_bug :
    (mergeResults [c2VectorHit] [c2JsonHit]).map (fun r => (r.content, r.method))
      = [("Gnade bezeichnet die freie Zuwendung Gottes zum Menschen.", "vector")] ∧
    (mergeResults [c2VectorHit] [c2JsonHit]).map (fun r => (rerankBonus r).score)
      = [1 + (2 : ℚ) / 10] := by
  constructor
  · rfl
  · norm_num [mergeResults, rerankBonus, c2VectorHit, c2JsonHit]

/-- Unfolding equation: the `none` cons case of the third pass. -/
theorem assignAux_cons_none (total f : String → Nat) (rest : List (Option String)) :
    assignLemmaMetaAux total f (none :: rest)
      = (none, none, none) :: assignLemmaMetaAux total f rest := rfl

/-- Unfolding equation: the truthy-lemma cons case of the third pass. -/
theorem assignAux_cons_some (total f : String → Nat) (M : String)
    (rest : List (Option String)) (hM : M.isEmpty = false) :
    assignLemmaMetaAux total f (some M :: rest)
      = (some M, some (f M + 1), some (total M)) ::
        assignLemmaMetaAux total (fun s => if s = M then f s + 1 else f s) rest := by
  simp [assignLemmaMetaAux, hM]

/-- Unfolding equation: the empty-string-lemma cons case of the third pass. -/
theorem assignAux_cons_empty (total f : String → Nat)
    (rest : List (Option String)) :
    assignLemmaMetaAux total f (some "" :: rest)
      = (some "", none, none) :: assignLemmaMetaAux total f rest := rfl

/-- Inductive core for claim C3, generalising over the running counter:
the `lemma_chunk_index` values of the entries owned by a non-empty lemma `L`
are consecutive starting just above the counter, and every such entry's
`lemma_total_chunks` is `total L`. -/
theorem assignLemmaMetaAux_spec (total : String → Nat) (L : String)
    (hL : L.isEmpty = false) :
    ∀ (ls : List (Option String)) (f : String → Nat),
      (((assignLemmaMetaAux total f ls).filter
          (fun e => e.1 == some L)).map (fun e => e.2.1)
        = (List.range' (f L + 1)
            ((ls.filter optTruthy).countP (fun o => o == some L))).map some) ∧
      (∀ e ∈ assignLemmaMetaAux total f ls, e.1 = some L →
        e.2.2 = some (total L)) := by
  intro ls
  induction ls with
  | nil =>
    intro f
    exact ⟨rfl, fun e he => absurd he (List.not_mem_nil e)⟩
  | cons o rest ih =>
    intro f
    rcases o with _ | M
    · refine ⟨(ih f).1, ?_⟩
      intro e he h1
      rw [assignAux_cons_none] at he
      rcases List.mem_cons.mp he with rfl | he2
      · exact absurd h1 (by simp)
      · exact (ih f).2 e he2 h1
    · by_cases hM : M.isEmpty = true
      · have hMe : M = "" := (String.isEmpty_iff M).mp hM
        subst hMe
        have hLne : ¬ (((some "" : Option String) == some L) = true) := by
          simp only [beq_iff_eq, Option.some.injEq]
          intro hc
          rw [← hc] at hL
          exact absurd hL (by decide)
        refine ⟨?_, ?_⟩
        · rw [assignAux_cons_empty, List.filter_cons, if_neg hLne]
          exact (ih f).1
        · intro e he h1
          rw [assignAux_cons_empty] at he
          rcases List.mem_cons.mp he with rfl | he2
          · exact absurd (Option.some.inj h1) (by
              intro hc; rw [← hc] at hL; exact absurd hL (by decide))
          · exact (ih f).2 e he2 h1
      · have hMf : M.isEmpty = false := by
          cases h : M.isEmpty
          · rfl
          · exact absurd h hM
        by_cases hML : M = L
        · subst hML
          refine ⟨?_, ?_⟩
          · rw [assignAux_cons_some total f M rest hMf, List.filter_cons,
              if_pos (by simp), List.map_cons]
            have hcnt : ((some M :: rest).filter optTruthy).countP
                (fun o => o == some M)
                = ((rest.filter optTruthy).countP (fun o => o == some M)) + 1 := by
              rw [List.filter_cons]
              have : optTruthy (some M) = true := by simp [optTruthy, hMf]
              rw [if_pos this, List.countP_cons]
              simp
            rw [hcnt, List.range'_succ _ _ 1, List.map_cons]
            refine List.cons_eq_cons.mpr ⟨rfl, ?_⟩
            have h1 := (ih (fun s => if s = M then f s + 1 else f s)).1
            have hif : (if M = M then f M + 1 else f M) = f M + 1 := if_pos rfl
            rw [hif] at h1
            exact h1
          · intro e he h1
            rw [assignAux_cons_some total f M rest hMf] at he
            rcases List.mem_cons.mp he with rfl | he2
            · rfl
            · exact (ih (fun s => if s = M then f s + 1 else f s)).2 e he2 h1
        · have hne : ¬ (((some M : Option String) == some L) = true) := by
            simp only [beq_iff_eq, Option.some.injEq]
            exact hML
          refine ⟨?_, ?_⟩
          · rw [assignAux_cons_some total f M rest hMf, List.filter_cons,
              if_neg hne]
            have hcnt : ((some M :: rest).filter optTruthy).countP
                (fun o => o == some L)
                = (rest.filter optTruthy).countP (fun o => o == some L) := by
              rw [List.filter_cons]
              have : optTruthy (some M) = true := by simp [optTruthy, hMf]
              rw [if_pos this, List.countP_cons]
              simp [hne]
            rw [hcnt]
            have h1 := (ih (fun s => if s = M then f s + 1 else f s)).1
            have hfL : (if L = M then f L + 1 else f L) = f L :=
              if_neg (fun h => hML h.symm)
            simp only [hfL] at h1
            exact h1
          · intro e he h1
            rw [assignAux_cons_some total f M rest hMf] at he
            rcases List.mem_cons.mp he with rfl | he2
            · exact absurd (Option.some.inj h1) hML
            · exact (ih (fun s => if s = M then f s + 1 else f s)).2 e he2 h1

/-- Claim C3: in the metadata produced by the two-pass lemma assignment, for
every non-empty lemma `L` that is assigned to at least one chunk, all chunks
whose lemma is `L` carry `lemma_total_chunks = lemmaChunkCounts … L` (the
number of chunks assigned `L`), and their `lemma_chunk_index` values, in
order, are exactly `1, …, lemma_total_chunks` — no gaps, no duplicates. -/
theorem lemma_chunk_consistency (detect : String → Option String)
    (chunks : List String) (L : String) (hL : L ≠ "")
    (hocc : some L ∈ chunkLemmas detect chunks) :
    (((assignLemmaMeta (chunkLemmas detect chunks)).filter
        (fun e => e.1 == some L)).map (fun e => e.2.1)
      = (List.range' 1 (lemmaChunkCounts (chunkLemmas detect chunks) L)).map some) ∧
    (∀ e ∈ assignLemmaMeta (chunkLemmas detect chunks), e.1 = some L →
      e.2.2 = some (lemmaChunkCounts (chunkLemmas detect chunks) L)) := by
  have hLf : L.isEmpty = false := by
    cases h : L.isEmpty
    · rfl
    · exact absurd ((String.isEmpty_iff L).mp h) hL
  have h := assignLemmaMetaAux_spec
    (fun M => lemmaChunkCounts (chunkLemmas detect chunks) M) L hLf
    (chunkLemmas detect chunks) (fun _ => 0)
  exact ⟨h.1, h.2⟩

/-- Witness for claim C3: three chunks, the first starting the headword
GNADE which then carries forward, receive indices 1, 2, 3 out of 3. -/
theorem lemma_chunk_consistency_witness :
    ((assignLemmaMeta (chunkLemmas c3Detect
        ["GNADE, die freie Zuwendung", "weiter im Text", "und noch mehr"])).filter
      (fun e => e.1 == some "GNADE")).map (fun e => e.2.1)
    = (List.range' 1 (lemmaChunkCounts (chunkLemmas c3Detect
        ["GNADE, die freie Zuwendung", "weiter im Text", "und noch mehr"]) "GNADE")).map some :=
  (lemma_chunk_consistency c3Detect
    ["GNADE, die freie Zuwendung", "weiter im Text", "und noch mehr"]
    "GNADE" (by decide) (by decide)).1

/-! ### Claim C6: samples-mode monotonicity -/

theorem mem_pyInsortBy {α : Type} (lt : α → α → Bool) (x a : α) :
    ∀ l : List α, a ∈ pyInsortBy lt x l ↔ a = x ∨ a ∈ l := by
  intro l
  induction l with
  | nil => simp [pyInsortBy]
  | cons y ys ih =>
    by_cases h : lt y x
    · simp only [pyInsortBy, if_pos h, List.mem_cons, ih]
      tauto
    · simp only [pyInsortBy, if_neg h, List.mem_cons]

theorem mem_pySortBy {α : Type} (lt : α → α → Bool) (a : α) :
    ∀ l : List α, a ∈ pySortBy lt l ↔ a ∈ l := by
  intro l
  induction l with
  | nil => simp [pySortBy]
  | cons x xs ih =>
    simp only [pySortBy, mem_pyInsortBy, ih, List.mem_cons]

theorem getLastOpt_mem {α : Type} (a : α) :
    ∀ l : List α, l.getLast? = some a → a ∈ l := by
  intro l
  induction l with
  | nil => intro h; exact absurd h (by simp)
  | cons x xs ih =>
    intro h
    rcases xs with _ | ⟨y, ys⟩
    · simp only [List.getLast?_singleton] at h
      exact List.mem_singleton.mpr (Option.some.inj h).symm
    · rw [List.getLast?_cons_cons] at h
      exact List.mem_cons_of_mem x (ih h)

theorem headOpt_mem {α : Type} (a : α) :
    ∀ l : List α, l.head? = some a → a ∈ l := by
  intro l
  rcases l with _ | ⟨x, xs⟩
  · intro h; exact absurd h (by simp)
  · intro h
    simp only [List.head?_cons] at h
    exact List.mem_cons.mpr (Or.inl (Option.some.inj h).symm)

theorem mapInv_pmInsert (d : Int) (m : List (Int × Option Int)) (k : Int)
    (v : Option Int) (hm : mapInv d m) (hv : ∀ n : Int, v = some n → n = k - d) :
    mapInv d (pmInsert m k v) := by
  intro e he n hev
  unfold pmInsert at he
  by_cases hc : m.any (fun e => e.1 == k)
  · rw [if_pos hc] at he
    rcases List.mem_map.mp he with ⟨e0, he0, heq⟩
    by_cases hk : (e0.1 == k) = true
    · rw [if_pos hk] at heq
      rw [← heq] at hev ⊢
      exact hv n hev
    · rw [if_neg hk] at heq
      rw [← heq] at hev ⊢
      exact hm e0 he0 n hev
  · rw [if_neg hc] at he
    rcases List.mem_append.mp he with h | h
    · exact hm e h n hev
    · have : e = (k, v) := by simpa using h
      rw [this] at hev ⊢
      exact hv n hev

theorem mapInv_foldl (d : Int) (val : Int → Option Int)
    (cond : List (Int × Option Int) → Int → Bool)
    (hval : ∀ p n : Int, val p = some n → n = p - d) :
    ∀ (l : List Int) (m : List (Int × Option Int)), mapInv d m →
      mapInv d (l.foldl
        (fun mm p => if cond mm p then mm else pmInsert mm p (val p)) m) := by
  intro l
  induction l with
  | nil => intro m hm; exact hm
  | cons p rest ih =>
    intro m hm
    rw [List.foldl_cons]
    apply ih
    by_cases hc : cond m p
    · rw [if_pos hc]; exact hm
    · rw [if_neg hc]; exact mapInv_pmInsert d m p (val p) hm (hval p)

theorem mapInv_irregularPass (d : Int) :
    ∀ (l : List Sample) (m : List (Int × Option Int)), mapInv d m →
      mapInv d (l.foldl
        (fun m s => match s.print with
          | none => pmInsert m s.pdf none
          | some _ => m) m) := by
  intro l
  induction l with
  | nil => intro m hm; exact hm
  | cons s rest ih =>
    intro m hm
    rw [List.foldl_cons]
    apply ih
    rcases hs : s.print with _ | p
    · simp only [hs]
      exact mapInv_pmInsert d m s.pdf none hm (fun n hn => absurd hn (by simp))
    · simp only [hs]
      exact hm

theorem mapInv_interp (d : Int) (irr : List Int) :
    ∀ (vp : List (Int × Int)), (∀ c ∈ vp, c.1 - c.2 = d) →
      ∀ m : List (Int × Option Int), mapInv d m →
        mapInv d (interpValidSamples irr m vp) := by
  intro vp
  induction vp with
  | nil => intro _ m hm; exact hm
  | cons c rest ih =>
    intro hvp m hm
    have hc : c.1 - c.2 = d := hvp c (List.mem_cons_self c rest)
    rcases rest with _ | ⟨t, rest2⟩
    · show mapInv d (pmInsert m c.1 (some c.2))
      exact mapInv_pmInsert d m c.1 (some c.2) hm
        (fun n hn => by
          have : c.2 = n := Option.some.inj hn
          omega)
    · show mapInv d (interpValidSamples irr _ (t :: rest2))
      apply ih (fun x hx => hvp x (List.mem_cons_of_mem c hx))
      have hbase : mapInv d (pmInsert m c.1 (some c.2)) :=
        mapInv_pmInsert d m c.1 (some c.2) hm
          (fun n hn => by
            have : c.2 = n := Option.some.inj hn
            omega)
      have hfold : ∀ mm : List (Int × Option Int), mapInv d mm →
          mapInv d ((intRange (c.1 + 1) t.1).foldl
            (fun mm p => if irr.contains p then mm
              else pmInsert mm p (some (p - (c.1 - c.2)))) mm) := by
        intro mm hmm
        exact mapInv_foldl d (fun p => some (p - (c.1 - c.2)))
          (fun _ p => irr.contains p)
          (fun p n hn => by
            have : p - (c.1 - c.2) = n := Option.some.inj hn
            omega)
          (intRange (c.1 + 1) t.1) mm hmm
      by_cases hoff : c.1 - c.2 = t.1 - t.2
      · rw [if_pos hoff]
        exact hfold _ hbase
      · rw [if_neg hoff]
        exact hfold _ hbase

theorem mapInv_afterLast (d : Int) (tp : Option Int) (vp : List (Int × Int))
    (hvp : ∀ c ∈ vp, c.1 - c.2 = d) (m : List (Int × Option Int))
    (hm : mapInv d m) : mapInv d (afterLastPass tp vp m) := by
  unfold afterLastPass
  rcases hl : vp.getLast? with _ | last
  · exact hm
  · have hlast : last.1 - last.2 = d := hvp last (getLastOpt_mem last vp hl)
    exact mapInv_foldl d (fun p => some (p - (last.1 - last.2)))
      (fun mm p => pageMapHasKey mm p)
      (fun p n hn => by
        have : p - (last.1 - last.2) = n := Option.some.inj hn
        omega) _ _ hm

theorem mapInv_beforeFirst (d : Int) (vp : List (Int × Int))
    (hvp : ∀ c ∈ vp, c.1 - c.2 = d) (m : List (Int × Option Int))
    (hm : mapInv d m) : mapInv d (beforeFirstPass vp m) := by
  unfold beforeFirstPass
  rcases hh : vp.head? with _ | first
  · exact hm
  · have hfirst : first.1 - first.2 = d := hvp first (headOpt_mem first vp hh)
    exact mapInv_foldl d
      (fun p => if p - (first.1 - first.2) > 0 then some (p - (first.1 - first.2)) else none)
      (fun mm p => pageMapHasKey mm p)
      (fun p n hn => by
        dsimp only at hn
        by_cases hpos : p - (first.1 - first.2) > 0
        · rw [if_pos hpos] at hn
          have : p - (first.1 - first.2) = n := Option.some.inj hn
          omega
        · rw [if_neg hpos] at hn
          exact absurd hn (by simp)) _ _ hm

theorem mapInv_processSamples (d : Int) (samples : List Sample)
    (tp : Option Int)
    (hoff : ∀ s ∈ samples, s.print = none ∨ s.print = some (s.pdf - d)) :
    mapInv d (processSamplesMapping samples tp) := by
  unfold processSamplesMapping
  by_cases hs : samples.isEmpty
  · rw [if_pos hs]
    intro e he; exact absurd he (List.not_mem_nil e)
  · rw [if_neg hs]
    have hvp : ∀ c ∈ (pySortBy (fun a b => decide (a.pdf < b.pdf)) samples).filterMap
        (fun s => match s.print with | some p => some (s.pdf, p) | none => none),
        c.1 - c.2 = d := by
      intro c hc
      rcases List.mem_filterMap.mp hc with ⟨s, hsmem, hsome⟩
      have hsmem2 : s ∈ samples := (mem_pySortBy _ s samples).mp hsmem
      rcases hp : s.print with _ | p
      · rw [hp] at hsome; exact absurd hsome (by simp)
      · rw [hp] at hsome
        have hcs : (s.pdf, p) = c := Option.some.inj hsome
        rcases hoff s hsmem2 with hnone | hval
        · rw [hp] at hnone; exact absurd hnone (by simp)
        · rw [hp] at hval
          have : p = s.pdf - d := Option.some.inj hval
          rw [← hcs]
          omega
    have h1 : mapInv d ((pySortBy (fun a b => decide (a.pdf < b.pdf)) samples).foldl
        (fun m s => match s.print with
          | none => pmInsert m s.pdf none
          | some _ => m) []) :=
      mapInv_irregularPass d _ [] (fun e he => absurd he (List.not_mem_nil e))
    have h2 := mapInv_interp d
      (((pySortBy (fun a b => decide (a.pdf < b.pdf)) samples).filter
        (fun s => s.print.isNone)).map (fun s => s.pdf)) _ hvp _ h1
    exact mapInv_beforeFirst d _ hvp _ (mapInv_afterLast d tp _ hvp _ h2)

theorem getPrintPage_of_mapInv (d : Int) (m : List (Int × Option Int))
    (hinv : mapInv d m) (p n : Int) (h : getPrintPage m p = some n) :
    n = p - d := by
  unfold getPrintPage pageMapGet at h
  rcases hfind : m.find? (fun e => e.1 == p) with _ | e
  · rw [hfind] at h; exact absurd h (by simp)
  · rw [hfind] at h
    have hp := List.find?_some hfind
    have hmem := List.mem_of_find?_eq_some hfind
    have he1 : e.1 = p := by simpa using hp
    have := hinv e hmem n h
    omega

/-- Claim C6: for a samples-type page mapping whose anchors all share the
same offset `d = pdf - print`, the resolved print page is strictly
increasing in the pdf page over every pair of pdf pages that resolve to a
numeric page. -/
theorem samples_mode_monotonicity (samples : List Sample) (tp : Option Int)
    (d : Int)
    (hoff : ∀ s ∈ samples, s.print = none ∨ s.print = some (s.pdf - d))
    (p1 p2 n1 n2 : Int) (h12 : p1 < p2)
    (h1 : getPrintPage (processSamplesMapping samples tp) p1 = some n1)
    (h2 : getPrintPage (processSamplesMapping samples tp) p2 = some n2) :
    n1 < n2 := by
  have hinv := mapInv_processSamples d samples tp hoff
  have e1 := getPrintPage_of_mapInv d _ hinv p1 n1 h1
  have e2 := getPrintPage_of_mapInv d _ hinv p2 n2 h2
  omega

/-- Witness for claim C6: anchors pdf 5 ↦ print 1 and pdf 9 ↦ print 5
(constant offset 4) with `total_pages = 12`; pdf page 6 resolves to 2 and
pdf page 10 to 6, and 2 < 6. -/
theorem samples_mode_monotonicity_witness : (2 : Int) < 6 :=
  samples_mode_monotonicity
    [⟨5, some 1⟩, ⟨9, some 5⟩] (some 12) 4 (by decide)
    6 10 2 6 (by decide) (by decide) (by decide)

/-! ### Claim C7: lemma-index incremental purge with frame condition -/

theorem purgeFile_no_file (idx : List (String × List IdxEntry)) (A : String) :
    ∀ kv ∈ purgeFile idx A, ∀ e ∈ kv.2, e.file ≠ some A := by
  intro kv hkv e he
  unfold purgeFile at hkv
  have hkv2 := List.mem_of_mem_filter hkv
  rcases List.mem_map.mp hkv2 with ⟨kv0, _, heq⟩
  rw [← heq] at he
  have hp := List.of_mem_filter he
  intro hcontra
  rw [hcontra] at hp
  simp at hp

theorem entriesFor_cons_pos (kv : String × List IdxEntry)
    (rest : List (String × List IdxEntry)) (L : String)
    (h : (kv.1 == L) = true) : entriesFor (kv :: rest) L = kv.2 := by
  unfold entriesFor
  have hfind : (kv :: rest).find? (fun x => x.1 == L) = some kv :=
    List.find?_cons_of_pos rest h
  rw [hfind]

theorem entriesFor_cons_neg (kv : String × List IdxEntry)
    (rest : List (String × List IdxEntry)) (L : String)
    (h : (kv.1 == L) = false) :
    entriesFor (kv :: rest) L = entriesFor rest L := by
  unfold entriesFor
  have hfind : (kv :: rest).find? (fun x => x.1 == L)
      = rest.find? (fun x => x.1 == L) :=
    List.find?_cons_of_neg rest (by simp [h])
  rw [hfind]

theorem entriesFor_purge_of_no_key (idx : List (String × List IdxEntry))
    (A L : String) (h : ∀ kv ∈ idx, (kv.1 == L) = false) :
    entriesFor (purgeFile idx A) L = [] := by
  unfold entriesFor
  rcases hf : (purgeFile idx A).find? (fun kv => kv.1 == L) with _ | kv
  · rw [hf]
  · rw [hf]
    have hmem := List.mem_of_find?_eq_some hf
    have hp := List.find?_some hf
    unfold purgeFile at hmem
    have hmem2 := List.mem_of_mem_filter hmem
    rcases List.mem_map.mp hmem2 with ⟨kv0, hkv0, heq⟩
    have hk : kv.1 = kv0.1 := by rw [← heq]
    rw [hk] at hp
    rw [h kv0 hkv0] at hp
    exact absurd hp (by simp)

theorem purgeFile_frame (A B : String) (hAB : A ≠ B) :
    ∀ idx : List (String × List IdxEntry),
      (idx.map (fun kv => kv.1)).Nodup →
      ∀ L, (entriesFor (purgeFile idx A) L).filter (fun e => e.file == some B)
          = (entriesFor idx L).filter (fun e => e.file == some B) := by
  intro idx
  induction idx with
  | nil => intro _ L; rfl
  | cons kv rest ih =>
    intro hnodup L
    rw [List.map_cons] at hnodup
    have hknotin := (List.nodup_cons.mp hnodup).1
    have hnodup2 := (List.nodup_cons.mp hnodup).2
    have hunfold : purgeFile (kv :: rest) A
        = if (kv.2.filter (fun e => e.file != some A)).isEmpty
          then purgeFile rest A
          else (kv.1, kv.2.filter (fun e => e.file != some A)) :: purgeFile rest A := by
      unfold purgeFile
      rw [List.map_cons, List.filter_cons]
      by_cases hem : (kv.2.filter (fun e => e.file != some A)).isEmpty
      · simp [hem]
      · simp [hem]
    by_cases hkL : (kv.1 == L) = true
    · rw [entriesFor_cons_pos kv rest L hkL]
      by_cases hem : (kv.2.filter (fun e => e.file != some A)).isEmpty
      · rw [hunfold, if_pos hem]
        have habs : ∀ kv2 ∈ rest, (kv2.1 == L) = false := by
          intro kv2 hkv2
          by_cases hcon : (kv2.1 == L) = true
          · exfalso
            have h1 : kv2.1 = L := by simpa using hcon
            have h2 : kv.1 = L := by simpa using hkL
            apply hknotin
            rw [h2, ← h1]
            exact List.mem_map_of_mem (fun kv => kv.1) hkv2
          · exact Bool.eq_false_iff.mpr hcon
        rw [entriesFor_purge_of_no_key rest A L habs]
        have hall := List.filter_eq_nil_iff.mp (List.isEmpty_iff.mp hem)
        show ([] : List IdxEntry).filter (fun e => e.file == some B) = _
        rw [List.filter_nil]
        symm
        rw [List.filter_eq_nil_iff]
        intro e he
        have hA : ¬ ((e.file != some A) = true) := hall e he
        have hbeq : (e.file == some A) = true := by
          by_cases hx : (e.file == some A) = true
          · exact hx
          · exfalso; apply hA; simp [bne, hx]
        have hfe : e.file = some A := by simpa using hbeq
        rw [hfe]
        simp only [beq_iff_eq, Option.some.injEq]
        exact hAB
      · rw [hunfold, if_neg hem]
        rw [entriesFor_cons_pos (kv.1, kv.2.filter (fun e => e.file != some A))
          (purgeFile rest A) L hkL, List.filter_filter]
        apply List.filter_congr
        intro e _
        by_cases hB : (e.file == some B) = true
        · have hfe : e.file = some B := by simpa using hB
          have hne : (e.file != some A) = true := by
            rw [hfe]
            simp only [bne_iff_ne, ne_eq, Option.some.injEq]
            exact fun hc => hAB hc.symm
          rw [hB, hne]
          rfl
        · rw [Bool.eq_false_iff.mpr hB]
          simp
    · have hkLf : (kv.1 == L) = false := Bool.eq_false_iff.mpr hkL
      rw [entriesFor_cons_neg kv rest L hkLf, hunfold]
      by_cases hem : (kv.2.filter (fun e => e.file != some A)).isEmpty
      · rw [if_pos hem]
        exact ih hnodup2 L
      · rw [if_neg hem]
        rw [entriesFor_cons_neg (kv.1, kv.2.filter (fun e => e.file != some A))
          (purgeFile rest A) L hkLf]
        exact ih hnodup2 L

theorem buildRun_deleted_scenario (idx0 : List (String × List IdxEntry))
    (A B : String) (ma mb : Int) (itemsB : List RawEntry)
    (hAB : A ≠ B) (hB1 : B ≠ "lemma_index.json")
    (hB2 : B ≠ "lemma_index_meta.json") :
    buildRun idx0 [(A, ma), (B, mb)] [⟨B, mb, itemsB⟩] false
      = (purgeFile idx0 A, [(B, mb)]) := by
  have hAB2 : (A == B) = false := beq_eq_false_iff_ne.mpr hAB
  have hBA2 : (B == A) = false := beq_eq_false_iff_ne.mpr (Ne.symm hAB)
  have hB12 : (B == "lemma_index.json") = false := beq_eq_false_iff_ne.mpr hB1
  have hB22 : (B == "lemma_index_meta.json") = false := beq_eq_false_iff_ne.mpr hB2
  simp [buildRun, metaLookup, metaErase, hAB2, hBA2, hB12, hB22, bne]

/-- Claim C7: starting from an index built from archive files A and B
(distinct names, B not one of the two index bookkeeping files, dict keys
unique), deleting A and re-running the builder non-forced with B unmodified
(same recorded mtime) yields an index with no entry whose `file` field
references A, while for every lemma the entries referencing B are exactly
those of the prior index. -/
theorem lemma_index_incremental_purge (idx0 : List (String × List IdxEntry))
    (A B : String) (ma mb : Int) (itemsB : List RawEntry)
    (hAB : A ≠ B) (hB1 : B ≠ "lemma_index.json")
    (hB2 : B ≠ "lemma_index_meta.json")
    (hnodup : (idx0.map (fun kv => kv.1)).Nodup) :
    (∀ kv ∈ (buildRun idx0 [(A, ma), (B, mb)] [⟨B, mb, itemsB⟩] false).1,
       ∀ e ∈ kv.2, e.file ≠ some A) ∧
    (∀ L, (entriesFor (buildRun idx0 [(A, ma), (B, mb)]
              [⟨B, mb, itemsB⟩] false).1 L).filter (fun e => e.file == some B)
        = (entriesFor idx0 L).filter (fun e => e.file == some B)) := by
  rw [buildRun_deleted_scenario idx0 A B ma mb itemsB hAB hB1 hB2]
  exact ⟨purgeFile_no_file idx0 A,
    fun L => purgeFile_frame A B hAB idx0 hnodup L⟩

/-- Witness for claim C7 at a concrete index: after deleting `A.json` and
re-running non-forced with `B.json` unchanged, the `B.json` entries under
the lemma "gnade" are exactly those of the prior index. -/
theorem lemma_index_incremental_purge_witness :
    (entriesFor (buildRun c7Index [("A.json", 100), ("B.json", 200)]
        [⟨"B.json", 200, []⟩] false).1 "gnade").filter
      (fun e => e.file == some "B.json")
    = (entriesFor c7Index "gnade").filter (fun e => e.file == some "B.json") :=
  (lemma_index_incremental_purge c7Index "A.json" "B.json" 100 200 []
    (by decide) (by decide) (by decide) (by decide)).2 "gnade"

/-! ### Claim C5: chunk length floor -/

theorem dropWhile_idem {α : Type} (p : α → Bool) :
    ∀ l : List α, (l.dropWhile p).dropWhile p = l.dropWhile p := by
  intro l
  induction l with
  | nil => rfl
  | cons a t ih =>
    rw [List.dropWhile_cons]
    by_cases h : p a
    · rw [if_pos h]; exact ih
    · rw [if_neg h, List.dropWhile_cons, if_neg h]

theorem dropWhile_head_false {α : Type} (p : α → Bool) :
    ∀ (l : List α) (a : α) (t : List α), l.dropWhile p = a :: t → p a = false := by
  intro l
  induction l with
  | nil => intro a t h; exact absurd h (by simp)
  | cons b bs ih =>
    intro a t h
    rw [List.dropWhile_cons] at h
    by_cases hb : p b
    · rw [if_pos hb] at h; exact ih a t h
    · rw [if_neg hb] at h
      have : b = a := (List.cons.inj h).1
      rw [← this]
      exact Bool.eq_false_iff.mpr hb

theorem backStrip_leading (l : List Char) : backStrip l <+: l := by
  unfold backStrip
  have h1 : l.reverse.dropWhile pySpaceChar <:+ l.reverse :=
    List.dropWhile_suffix pySpaceChar
  rcases h1 with ⟨s, hs⟩
  exact ⟨s.reverse, by rw [← List.reverse_append, hs, List.reverse_reverse]⟩

theorem frontStrip_backStrip_frontStrip (l : List Char) :
    frontStrip (backStrip (frontStrip l)) = backStrip (frontStrip l) := by
  rcases hb : backStrip (frontStrip l) with _ | ⟨a, t⟩
  · rfl
  · have hpre := backStrip_leading (frontStrip l)
    rw [hb] at hpre
    rcases hpre with ⟨r, hr⟩
    have hfs : frontStrip l = a :: (t ++ r) := by rw [← hr]; rfl
    have hpa : pySpaceChar a = false := dropWhile_head_false pySpaceChar l a (t ++ r) hfs
    show (a :: t).dropWhile pySpaceChar = a :: t
    rw [List.dropWhile_cons, if_neg (by simp [hpa])]

theorem backStrip_idem (l : List Char) : backStrip (backStrip l) = backStrip l := by
  unfold backStrip
  rw [List.reverse_reverse, dropWhile_idem]

theorem pyStrip_idem (s : String) : pyStrip (pyStrip s) = pyStrip s := by
  show String.mk (backStrip (frontStrip (backStrip (frontStrip s.data)))) = _
  rw [frontStrip_backStrip_frontStrip, backStrip_idem]
  rfl

theorem enumFrom_mem_snd {α : Type} :
    ∀ (l : List α) (n : Nat) (p : Nat × α), p ∈ List.enumFrom n l → p.2 ∈ l := by
  intro l
  induction l with
  | nil => intro n p h; exact absurd h (by simp)
  | cons a t ih =>
    intro n p h
    rw [List.enumFrom_cons] at h
    rcases List.mem_cons.mp h with rfl | h2
    · exact List.mem_cons_self a t
    · exact List.mem_cons_of_mem a (ih (n + 1) p h2)

theorem enum_mem_snd {α : Type} (l : List α) (p : Nat × α) (h : p ∈ l.enum) :
    p.2 ∈ l := enumFrom_mem_snd l 0 p h

/-- Generic preservation of a predicate on the projected accumulator of a
left fold whose steps only grow the projection with good elements. -/
theorem foldl_preserve {ι τ σ : Type} (P : σ → Prop) (proj : τ → List σ)
    (step : τ → ι → τ) (Q : ι → Prop)
    (hstep : ∀ acc x, Q x → (∀ p ∈ proj acc, P p) → ∀ p ∈ proj (step acc x), P p) :
    ∀ (l : List ι) (acc : τ), (∀ x ∈ l, Q x) → (∀ p ∈ proj acc, P p) →
      ∀ p ∈ proj (l.foldl step acc), P p := by
  intro l
  induction l with
  | nil => intro acc _ hacc; exact hacc
  | cons x rest ih =>
    intro acc hQ hacc
    rw [List.foldl_cons]
    exact ih (step acc x) (fun y hy => hQ y (List.mem_cons_of_mem x hy))
      (hstep acc x (hQ x (List.mem_cons_self x rest)) hacc)

/-- Specialisation of `foldl_preserve` to a bare list accumulator. -/
theorem foldl_preserve_list {ι σ : Type} (P : σ → Prop)
    (step : List σ → ι → List σ) (Q : ι → Prop)
    (hstep : ∀ acc x, Q x → (∀ p ∈ acc, P p) → ∀ p ∈ step acc x, P p) :
    ∀ (l : List ι) (acc : List σ), (∀ x ∈ l, Q x) → (∀ p ∈ acc, P p) →
      ∀ p ∈ l.foldl step acc, P p := by
  intro l
  induction l with
  | nil => intro acc _ hacc; exact hacc
  | cons x rest ih =>
    intro acc hQ hacc
    rw [List.foldl_cons]
    exact ih (step acc x) (fun y hy => hQ y (List.mem_cons_of_mem x hy))
      (hstep acc x (hQ x (List.mem_cons_self x rest)) hacc)

theorem splitDocument_floor (fo : String → String → Int → Int) (text : String)
    (raw : List String) :
    ∀ ch ∈ splitDocument fo text raw, MIN_CHUNK_LENGTH ≤ ch.1.length := by
  unfold splitDocument
  intro ch hch
  dsimp only at hch
  refine foldl_preserve (fun p : String × Int => MIN_CHUNK_LENGTH ≤ p.1.length)
    Prod.fst _ (fun c : String => MIN_CHUNK_LENGTH ≤ c.length)
    ?_ _ ([], 0) ?_ ?_ ch hch
  · intro acc x hx hacc p hp
    rcases List.mem_append.mp hp with h | h
    · exact hacc p h
    · have hpx : p = (x, fo text x acc.2) := by simpa using h
      rw [hpx]
      exact hx
  · intro x hx
    have h := List.of_mem_filter hx
    simp only [decide_eq_true_eq] at h
    exact h
  · intro p hp
    exact absurd hp (List.not_mem_nil p)

theorem chunkDogmatics_floor (sh : String → List (String × String))
    (text : String) (maxSize : Nat) :
    ∀ c ∈ chunkDogmatics sh text maxSize, 50 ≤ (pyStrip c.content).length := by
  unfold chunkDogmatics
  intro c hc
  refine foldl_preserve_list (fun c : SemChunk => 50 ≤ (pyStrip c.content).length)
    _ (fun _ : String × String => True)
    ?_ (sh text) [] (fun _ _ => trivial) ?_ c hc
  · intro acc se _ hacc p hp
    rcases List.mem_append.mp hp with h | h
    · exact hacc p h
    · refine foldl_preserve_list (fun c : SemChunk => 50 ≤ (pyStrip c.content).length)
        _ (fun _ : Nat × String => True) ?_
        (splitByParagraph se.1 maxSize).enum [] (fun _ _ => trivial)
        (fun q hq => absurd hq (List.not_mem_nil q)) p h
      intro acc2 ip _ hacc2 q hq
      by_cases hlen : decide ((pyStrip ip.2).length < 50) = true
      · rw [if_pos hlen] at hq
        exact hacc2 q hq
      · rw [if_neg hlen] at hq
        rcases List.mem_append.mp hq with h2 | h2
        · exact hacc2 q h2
        · have hqe := List.mem_singleton.mp h2
          rw [hqe]
          show 50 ≤ (pyStrip ip.2).length
          have hge := of_decide_eq_false (Bool.eq_false_iff.mpr hlen)
          omega
  · intro p hp
    exact absurd hp (List.not_mem_nil p)

theorem chunkDictionaryCore_floor (text : String) (maxSize : Nat)
    (hsz : ∀ e ∈ splitByLemma text, e.1.length ≤ maxSize * 4) :
    ∀ c ∈ chunkDictionaryCore text maxSize, 50 ≤ (pyStrip c.content).length := by
  unfold chunkDictionaryCore
  intro c hc
  refine foldl_preserve_list (fun c : SemChunk => 50 ≤ (pyStrip c.content).length)
    _ (fun el : String × String => el.1.length ≤ maxSize * 4)
    ?_ (splitByLemma text) [] hsz
    (fun q hq => absurd hq (List.not_mem_nil q)) c hc
  intro acc el hel hacc q hq
  by_cases h50 : decide ((pyStrip el.1).length < 50) = true
  · rw [if_pos h50] at hq
    exact hacc q hq
  · rw [if_neg h50] at hq
    have hov : decide (el.1.length > maxSize * 4) = false := by
      simp only [decide_eq_false_iff_not]
      omega
    simp only [hov, Bool.false_eq_true, if_false] at hq
    rcases List.mem_append.mp hq with h2 | h2
    · exact hacc q h2
    · have hqe := List.mem_singleton.mp h2
      rw [hqe]
      show 50 ≤ (pyStrip el.1).length
      have hge := of_decide_eq_false (Bool.eq_false_iff.mpr h50)
      omega

theorem chunkDictionary_floor (sh : String → List (String × String))
    (text : String) (maxSize : Nat)
    (hsz : ∀ e ∈ splitByLemma text, e.1.length ≤ maxSize * 4) :
    ∀ c ∈ chunkDictionary sh text maxSize, 50 ≤ (pyStrip c.content).length := by
  unfold chunkDictionary
  intro c hc
  dsimp only at hc
  by_cases hemp : (chunkDictionaryCore text maxSize).isEmpty
  · rw [if_pos hemp] at hc
    exact chunkDogmatics_floor sh text maxSize c hc
  · rw [if_neg hemp] at hc
    exact chunkDictionaryCore_floor text maxSize hsz c hc

theorem chunkCommentaryCore_floor (parts refs : List String) (text : String)
    (maxSize : Nat) (hsz : ∀ p ∈ parts, p.length ≤ maxSize * 4) :
    ∀ c ∈ chunkCommentaryCore parts refs text maxSize,
      30 ≤ (pyStrip c.content).length := by
  unfold chunkCommentaryCore
  intro c hc
  refine foldl_preserve_list (fun c : SemChunk => 30 ≤ (pyStrip c.content).length)
    _ (fun ip : Nat × String => ip.2.length ≤ maxSize * 4)
    ?_ parts.enum [] (fun ip hip => hsz ip.2 (enum_mem_snd parts ip hip))
    (fun q hq => absurd hq (List.not_mem_nil q)) c hc
  intro acc ip hip hacc q hq
  by_cases h30 : decide ((pyStrip ip.2).length < 30) = true
  · rw [if_pos h30] at hq
    exact hacc q hq
  · rw [if_neg h30] at hq
    have hov : decide (ip.2.length > maxSize * 4) = false := by
      simp only [decide_eq_false_iff_not]
      omega
    simp only [hov, Bool.false_eq_true, if_false] at hq
    rcases List.mem_append.mp hq with h2 | h2
    · exact hacc q h2
    · have hqe := List.mem_singleton.mp h2
      rw [hqe]
      show 30 ≤ (pyStrip (pyStrip ip.2)).length
      rw [pyStrip_idem]
      have hge := of_decide_eq_false (Bool.eq_false_iff.mpr h30)
      omega

theorem chunkCommentary_floor (sh : String → List (String × String))
    (parts refs : List String) (text : String) (maxSize : Nat)
    (hsz : ∀ p ∈ parts, p.length ≤ maxSize * 4) :
    ∀ c ∈ chunkCommentary sh parts refs text maxSize,
      30 ≤ (pyStrip c.content).length := by
  unfold chunkCommentary
  intro c hc
  dsimp only at hc
  by_cases hemp : (chunkCommentaryCore parts refs text maxSize).isEmpty
  · rw [if_pos hemp] at hc
    have h := chunkDogmatics_floor sh text maxSize c hc
    omega
  · rw [if_neg hemp] at hc
    exact chunkCommentaryCore_floor parts refs text maxSize hsz c hc

/-- Claim C5, amended.  The token-aware chunker keeps its floor
unconditionally: every chunk of `split_document` has at least
`MIN_CHUNK_LENGTH` (100) characters.  The semantic chunker enforces its
per-strategy floors only on directly-emitted chunks: every dogmatics chunk
has stripped length ≥ 50, and whenever no entry (resp. part) exceeds
`max_chunk_size * 4`, every dictionary chunk has stripped length ≥ 50 and
every commentary chunk stripped length ≥ 30.  Sub-chunks produced by the
oversize-entry paragraph fallback are emitted without any length check and
can be arbitrarily short (see the counterexample). -/
theorem chunk_length_floor :
    (∀ (fo : String → String → Int → Int) (text : String) (raw : List String),
      ∀ ch ∈ splitDocument fo text raw, MIN_CHUNK_LENGTH ≤ ch.1.length) ∧
    (∀ (sh : String → List (String × String)) (text : String) (maxSize : Nat),
      ∀ c ∈ chunkDogmatics sh text maxSize, 50 ≤ (pyStrip c.content).length) ∧
    (∀ (sh : String → List (String × String)) (text : String) (maxSize : Nat),
      (∀ e ∈ splitByLemma text, e.1.length ≤ maxSize * 4) →
      ∀ c ∈ chunkDictionary sh text maxSize, 50 ≤ (pyStrip c.content).length) ∧
    (∀ (sh : String → List (String × String)) (parts refs : List String)
        (text : String) (maxSize : Nat),
      (∀ p ∈ parts, p.length ≤ maxSize * 4) →
      ∀ c ∈ chunkCommentary sh parts refs text maxSize,
        30 ≤ (pyStrip c.content).length) :=
  ⟨splitDocument_floor, chunkDogmatics_floor, chunkDictionary_floor,
    chunkCommentary_floor⟩

/-- Counterexample to claim C5 as stated: on `c5Text` with the dictionary
preset size 400, the semantic dictionary strategy emits two chunks of
lengths 1707 and 2 — the second, the fallback sub-chunk "zz", is shorter
than every candidate minimum (30, 50 and 100). -/
theorem chunk_length_floor_counterexample :
    (chunkDictionary (fun _ => []) c5Text 400).map (fun c => c.content.length)
        = [1707, 2] ∧
    (chunkDictionary (fun _ => []) c5Text 400).any
        (fun c => decide (c.content.length < 30)) = true := by
  constructor
  · decide
  · decide

/-- Witness for the amended claim C5: a single 50-character commentary part
(below 4 × 100) yields one direct chunk whose stripped content keeps the
30-character floor. -/
theorem chunk_length_floor_witness :
    30 ≤ (pyStrip ({ content := pyStrip c5Part,
                     chunkType := "verse",
                     startIndex := 0,
                     endIndex := 0,
                     mVerseRef := some "" } : SemChunk).content).length :=
  chunk_length_floor.2.2.2 (fun _ => []) [c5Part] [] "" 100
    (by decide) _ (by decide)

/-! ### Claim C4: chunk-ID determinism -/

theorem buildChunkRecords_ids (abbr : String) (volume : Option Nat)
    (total : String → Nat) :
    ∀ (ls : List (Option String)) (f : String → Nat) (i : Nat),
      (buildChunkRecords abbr volume total f i ls).map (fun r => r.1)
        = (List.enumFrom i ls).map (fun io => mkChunkId abbr volume io.2 io.1) := by
  intro ls
  induction ls with
  | nil => intro f i; rfl
  | cons o rest ih =>
    intro f i
    rcases o with _ | L
    · simp only [buildChunkRecords, List.enumFrom_cons, List.map_cons]
      rw [ih]
    · by_cases hL : L.isEmpty
      · simp only [buildChunkRecords, hL, if_true, List.enumFrom_cons, List.map_cons]
        rw [ih]
      · simp only [buildChunkRecords, hL, Bool.false_eq_true, if_false,
          List.enumFrom_cons, List.map_cons]
        rw [ih]

theorem chunkLemmasAux_length (detect : String → Option String) :
    ∀ (chunks : List String) (cur : Option String),
      (chunkLemmasAux detect cur chunks).length = chunks.length := by
  intro chunks
  induction chunks with
  | nil => intro cur; rfl
  | cons c rest ih =>
    intro cur
    simp only [chunkLemmasAux, List.length_cons]
    rw [ih]

/-- Claim C4: processing a source file is a pure function of the filename,
the detector and the splitter output — two runs with identical inputs
produce identical results — and the ID list is exactly one ID per chunk,
the `i`-th being derived only from the detected series abbreviation, the
volume, the (truncated) lemma assigned to chunk `i`, and the sequence
index `i`. -/
theorem chunk_id_determinism (detect : String → Option String)
    (filename : String) (chunks : List String) :
    processFileIds detect filename chunks = processFileIds detect filename chunks ∧
    processFileIds detect filename chunks
      = (extractDictionaryInfo filename).map
          (fun av => (List.enumFrom 0 (chunkLemmas detect chunks)).map
            (fun io => mkChunkId av.1 av.2 io.2 io.1)) ∧
    (∀ ids, processFileIds detect filename chunks = some ids →
      ids.length = chunks.length) := by
  have hcf : processFileIds detect filename chunks
      = (extractDictionaryInfo filename).map
          (fun av => (List.enumFrom 0 (chunkLemmas detect chunks)).map
            (fun io => mkChunkId av.1 av.2 io.2 io.1)) := by
    unfold processFileIds
    rcases hx : extractDictionaryInfo filename with _ | av
    · rfl
    · simp only [Option.map_some']
      rw [buildChunkRecords_ids]
  refine ⟨rfl, hcf, ?_⟩
  intro ids h
  rw [hcf] at h
  rcases hx : extractDictionaryInfo filename with _ | av
  · rw [hx] at h
    exact absurd h (by simp)
  · rw [hx] at h
    simp only [Option.map_some'] at h
    have hids : ids = (List.enumFrom 0 (chunkLemmas detect chunks)).map
        (fun io => mkChunkId av.1 av.2 io.2 io.1) := (Option.some.inj h).symm
    rw [hids]
    simp only [List.length_map, List.enumFrom_length]
    exact chunkLemmasAux_length detect chunks none

/-- Witness for claim C4 on the concrete file `ThWAT_Vol1.pdf` with two
chunks: the run yields exactly the two IDs `ThWAT_1_0000`, `ThWAT_1_0001`,
one per chunk. -/
theorem chunk_id_determinism_witness :
    (["ThWAT_1_0000", "ThWAT_1_0001"] : List String).length
      = (["erster Text hier", "zweiter Text hier"] : List String).length :=
  (chunk_id_determinism (fun _ => none) "ThWAT_Vol1.pdf"
      ["erster Text hier", "zweiter Text hier"]).2.2
    ["ThWAT_1_0000", "ThWAT_1_0001"] (by decide)

/-! ### Claims C8 and C9: concrete filename parses -/

/-- Claim C8: parsing `TRE_Bd04.pdf` yields series `TRE`, volume 4 and
doc type `dictionary` at confidence 0.95 (> 0.5, scaled to percent), via
the dictionary-series pattern — the two patterns ordered before it do not
match this filename. -/
theorem dictionary_volume_parse :
    (metadataParse "TRE_Bd04.pdf").series = some "TRE" ∧
    (metadataParse "TRE_Bd04.pdf").volume = some 4 ∧
    (metadataParse "TRE_Bd04.pdf").docType = "dictionary" ∧
    (metadataParse "TRE_Bd04.pdf").confidence = 95 ∧
    50 < (metadataParse "TRE_Bd04.pdf").confidence ∧
    rmatch 1000 PATTERN_1 "TRE_Bd04.pdf".data [] = none ∧
    rmatch 1000 PATTERN_2 "TRE_Bd04.pdf".data [] = none := by
  exact ⟨by decide, by decide, by decide, by decide, by decide, by decide,
    by decide⟩

/-- Claim C9: parsing `Karl Barth - Church Dogmatics (1932).pdf` yields
author `Karl Barth` (via the known-author table), title
`Church Dogmatics`, year 1932, and confidence 0.9 > 0.5 (scaled to
percent). -/
theorem roundtrip_metadata_parse :
    (metadataParse "Karl Barth - Church Dogmatics (1932).pdf").author
        = "Karl Barth" ∧
    (metadataParse "Karl Barth - Church Dogmatics (1932).pdf").title
        = "Church Dogmatics" ∧
    (metadataParse "Karl Barth - Church Dogmatics (1932).pdf").year
        = some 1932 ∧
    50 < (metadataParse "Karl Barth - Church Dogmatics (1932).pdf").confidence := by
  exact ⟨by decide, by decide, by decide, by decide⟩
